import Mathlib

/-!
Verification development for the rule extraction / validation / application
engine of the outlier-detection repository.

The Python sources are shallowly embedded:
* Python `str` values are Lean `String`s; the character-level operations the
  code relies on (`in`, `replace`, `split`, `strip`, `startswith`,
  `endswith`, `count`) are reimplemented on `List Char` with Python's
  semantics (left-to-right, non-overlapping matches; all patterns used by
  the code are non-empty).
* Python floats produced by `float()` on strings matched by `[0-9.]+`
  groups are modelled as exact rationals (`ℚ`); all comparisons the code
  performs on them are decimal-exact.
* Fallible code (IndexError, AttributeError, ValueError, KeyError paths)
  is modelled with `Option`, `none` standing for an uncaught exception.
-/

/-! ## Python string primitives on `List Char` -/

/-- Python's whitespace set, shared by `str.strip()`, `str.isspace()` and
the regex class `\s` (both read the Unicode White_Space property):
the six ASCII whitespace characters, the file/group/record separators
U+001C–U+001F, NEL, NBSP, Ogham space, the U+2000–U+200A spaces, the
line/paragraph separators, narrow NBSP, the mathematical medium space
and the ideographic space. -/
def isPySpace (c : Char) : Bool :=
  c = ' ' || c = '\t' || c = '\n' || c = '\x0d' || c = '\x0b' || c = '\x0c' ||
  (28 ≤ c.toNat && c.toNat ≤ 31) || c.toNat = 133 || c.toNat = 160 ||
  c.toNat = 5760 || (8192 ≤ c.toNat && c.toNat ≤ 8202) || c.toNat = 8232 ||
  c.toNat = 8233 || c.toNat = 8239 || c.toNat = 8287 || c.toNat = 12288

/-- The apostrophe character (written via its code point). -/
def apos : Char := Char.ofNat 39

/-- Python `s.startswith(pat)` on character lists. -/
def pyStartsWith : List Char → List Char → Bool
  | _, [] => true
  | [], _ :: _ => false
  | a :: as, b :: bs => a = b && pyStartsWith as bs

/-- Python `s.endswith(pat)` on character lists. -/
def pyEndsWith (s pat : List Char) : Bool :=
  pyStartsWith s.reverse pat.reverse

/-- Python `pat in s` on character lists. -/
def pyContains : List Char → List Char → Bool
  | [], pat => pat.isEmpty
  | c :: rest, pat => pyStartsWith (c :: rest) pat || pyContains rest pat

/-- Worker for `pyReplace`: scans `s` left to right; a positive `skip`
means the scanner is still inside an already-replaced occurrence and the
character is dropped.  After matching a pattern of length `k` at the
current position, the head is consumed and `k - 1` further characters
are skipped, which is exactly Python's non-overlapping semantics. -/
def pyReplaceAux (pat rep : List Char) : List Char → Nat → List Char
  | [], _ => []
  | _ :: rest, skip + 1 => pyReplaceAux pat rep rest skip
  | c :: rest, 0 =>
    if pyStartsWith (c :: rest) pat then rep ++ pyReplaceAux pat rep rest (pat.length - 1)
    else c :: pyReplaceAux pat rep rest 0

/-- Python `s.replace(pat, rep)` (all non-overlapping occurrences,
left to right).  The patterns used by the embedded code are non-empty;
for an empty pattern this model returns `s` unchanged. -/
def pyReplace (s pat rep : List Char) : List Char :=
  match pat with
  | [] => s
  | _ :: _ => pyReplaceAux pat rep s 0

/-- Worker for `pySplit`, with the same skip discipline as
`pyReplaceAux`; a match closes the current segment. -/
def pySplitAux (pat : List Char) : List Char → Nat → List (List Char)
  | [], _ => [[]]
  | _ :: rest, skip + 1 => pySplitAux pat rest skip
  | c :: rest, 0 =>
    if pyStartsWith (c :: rest) pat then [] :: pySplitAux pat rest (pat.length - 1)
    else
      match pySplitAux pat rest 0 with
      | [] => [[c]]
      | seg :: segs => (c :: seg) :: segs

/-- Python `s.split(pat)` for a non-empty separator. -/
def pySplit (s pat : List Char) : List (List Char) :=
  match pat with
  | [] => [s]
  | _ :: _ => pySplitAux pat s 0

/-- Worker for `pyCount`, with the same skip discipline. -/
def pyCountAux (pat : List Char) : List Char → Nat → Nat
  | [], _ => 0
  | _ :: rest, skip + 1 => pyCountAux pat rest skip
  | c :: rest, 0 =>
    if pyStartsWith (c :: rest) pat then 1 + pyCountAux pat rest (pat.length - 1)
    else pyCountAux pat rest 0

/-- Python `s.count(pat)` (non-overlapping) for a non-empty pattern. -/
def pyCount (s pat : List Char) : Nat :=
  match pat with
  | [] => 0
  | _ :: _ => pyCountAux pat s 0

/-- Python `s.lstrip()`. -/
def pyLstrip (s : List Char) : List Char := s.dropWhile isPySpace

/-- Python `s.rstrip()`. -/
def pyRstrip (s : List Char) : List Char :=
  (s.reverse.dropWhile isPySpace).reverse

/-- Python `s.strip()`. -/
def pyStrip (s : List Char) : List Char := pyRstrip (pyLstrip s)

/-- Python `s.strip(chars)` for an explicit character set. -/
def pyStripChars (s : List Char) (set : List Char) : List Char :=
  ((s.dropWhile (set.contains ·)).reverse.dropWhile (set.contains ·)).reverse

/-! ## String-level wrappers -/

/-- Data of a string concatenation. -/
theorem strDataAppend (a b : String) : (a ++ b).data = a.data ++ b.data := rfl

/-- Python `pat in s` on `String`. -/
def strIn (s pat : String) : Bool := pyContains s.data pat.data

/-- Python `s.endswith(pat)` on `String`. -/
def strEndsWith (s pat : String) : Bool := pyEndsWith s.data pat.data

/-- Python `s.startswith(pat)` on `String`. -/
def strStartsWith (s pat : String) : Bool := pyStartsWith s.data pat.data

/-- Python `s.replace(old, new)` on `String`. -/
def strReplace (s old new : String) : String := ⟨pyReplace s.data old.data new.data⟩

/-- The line boundaries of Python `str.splitlines()`: `\n`, `\r`, `\v`,
`\f`, the file/group/record separators U+001C–U+001E, NEL (U+0085) and
the line/paragraph separators U+2028/U+2029 (`\r\n` counts as one
boundary and is handled by the splitter itself). -/
def isLineBreak (c : Char) : Bool :=
  c = '\n' || c = '\x0d' || c = '\x0b' || c = '\x0c' ||
  c.toNat = 28 || c.toNat = 29 || c.toNat = 30 || c.toNat = 133 ||
  c.toNat = 8232 || c.toNat = 8233

/-- Worker for `pySplitlines`: `acc` holds the (reversed) current line;
a terminator at the very end of the text closes the last line without
opening an empty one, and `'\r'` swallows an immediately following
`'\n'`. -/
def pySplitlinesAux (acc : List Char) : List Char → List (List Char)
  | [] => [acc.reverse]
  | [c] =>
    if c = '\x0d' || isLineBreak c then [acc.reverse]
    else [(c :: acc).reverse]
  | c :: d :: rest =>
    if c = '\x0d' then
      if d = '\n' then
        match rest with
        | [] => [acc.reverse]
        | _ :: _ => acc.reverse :: pySplitlinesAux [] rest
      else acc.reverse :: pySplitlinesAux [] (d :: rest)
    else if isLineBreak c then acc.reverse :: pySplitlinesAux [] (d :: rest)
    else pySplitlinesAux (c :: acc) (d :: rest)

/-- Python `s.splitlines()`: split at every line boundary of
`isLineBreak` (with `'\r\n'` as a single boundary), yielding no trailing
empty line when the text ends in a boundary and no line at all for the
empty text. -/
def pySplitlines (s : List Char) : List (List Char) :=
  match s with
  | [] => []
  | _ :: _ => pySplitlinesAux [] s

/-! ## `src/api/utils/tree_utils_figs.py` -/

/-- `TreeNode` of `tree_utils_figs.py`: `value`, optional `left`/`right`
children, and the `root` flag.  The four presence combinations of the two
optional children are split into four constructors (instead of nesting
`Option TreeNode`) so that recursion over trees stays structural;
`TreeNode.left` / `TreeNode.right` recover the Python attributes. -/
inductive TreeNode where
  | node0 (value : String) (root : Bool)
  | nodeL (value : String) (left : TreeNode) (root : Bool)
  | nodeR (value : String) (right : TreeNode) (root : Bool)
  | node2 (value : String) (left : TreeNode) (right : TreeNode) (root : Bool)
deriving Repr, DecidableEq

/-- The `value` attribute. -/
def TreeNode.value : TreeNode → String
  | .node0 v _ => v
  | .nodeL v _ _ => v
  | .nodeR v _ _ => v
  | .node2 v _ _ _ => v

/-- The `left` attribute. -/
def TreeNode.left : TreeNode → Option TreeNode
  | .node0 _ _ => none
  | .nodeL _ l _ => some l
  | .nodeR _ _ _ => none
  | .node2 _ l _ _ => some l

/-- The `right` attribute. -/
def TreeNode.right : TreeNode → Option TreeNode
  | .node0 _ _ => none
  | .nodeL _ _ _ => none
  | .nodeR _ r _ => some r
  | .node2 _ _ r _ => some r

/-- The `root` attribute. -/
def TreeNode.root : TreeNode → Bool
  | .node0 _ b => b
  | .nodeL _ _ b => b
  | .nodeR _ _ b => b
  | .node2 _ _ _ b => b

/-- Node construction `TreeNode(value)` with subsequent child/root
assignments, from the Python attribute view. -/
def TreeNode.mk (value : String) (left right : Option TreeNode) (root : Bool) : TreeNode :=
  match left, right with
  | none, none => .node0 value root
  | some l, none => .nodeL value l root
  | none, some r => .nodeR value r root
  | some l, some r => .node2 value l r root

/-- Python `sep.join(parts)` on character lists. -/
def pyJoin (sep : List Char) : List (List Char) → List Char
  | [] => []
  | [x] => x
  | x :: y :: rest => x ++ sep ++ pyJoin sep (y :: rest)

/-- `trunc_output`: drop the first five lines. -/
def truncOutput (inputStr : String) : String :=
  ⟨pyJoin ['\n'] ((pySplitlines inputStr.data).drop 5)⟩

/-- `invert_comparison_operators(input_str)`. -/
def invertComparisonOperators (inputStr : String) : String :=
  if strIn inputStr " >= " then strReplace inputStr " >= " " < "
  else if strIn inputStr " <= " then strReplace inputStr " <= " " > "
  else if strIn inputStr " > " then strReplace inputStr " > " " <= "
  else if strIn inputStr " < " then strReplace inputStr " < " " >= "
  else inputStr

/-- The two leaf tests at the end of `extract_rules` (reached when
`node.root` is false and `node.left is None`; any other literal value
appends nothing). -/
def extractLeaf (v : String) (rule : String) : Option (List String) :=
  if v = "Val: 1.000 (leaf)" then some [rule ++ " THEN OUTLIER"]
  else if v = "Val: 0.000 (leaf)" then some [rule ++ " THEN INLIER"]
  else some []

/-- `extract_rules(node, rules, rule)` on a non-`None` node: returns the
list of rules the call appends to the accumulator, `none` modelling the
`AttributeError` raised when a recursive call dereferences an absent
child (`node.root` on `None`):
* a root node recurses into both children (left with the inverted
  condition), so an absent child is a crash;
* a non-root node with a left child does the same with `AND`-extended
  prefixes;
* a non-root node without a left child runs the leaf tests (its right
  child, if any, is ignored by the code). -/
def extractRulesNode : TreeNode → String → Option (List String)
  | .node2 v l r rt, rule =>
    if rt then do
      let ls ← extractRulesNode l ("IF " ++ invertComparisonOperators v)
      let rs ← extractRulesNode r ("IF " ++ v)
      pure (ls ++ rs)
    else do
      let ls ← extractRulesNode l (rule ++ " AND " ++ invertComparisonOperators v)
      let rs ← extractRulesNode r (rule ++ " AND " ++ v)
      pure (ls ++ rs)
  | .nodeL v l rt, rule =>
    if rt then (extractRulesNode l ("IF " ++ invertComparisonOperators v)).bind (fun _ => none)
    else (extractRulesNode l (rule ++ " AND " ++ invertComparisonOperators v)).bind (fun _ => none)
  | .nodeR v _ rt, rule => if rt then none else extractLeaf v rule
  | .node0 v rt, rule => if rt then none else extractLeaf v rule

/-- Character class `[0-9.]` used by the numeric regex groups. -/
def isNumDot (c : Char) : Bool := c.isDigit || c = '.'

/-- Character class `[\|\s-]` of the `indent` groups. -/
def isIndentChar (c : Char) : Bool := c = '|' || isPySpace c || c = '-'

/-- Numeric value of a digit list (most significant first). -/
def digitsToNat (l : List Char) : Nat :=
  l.foldl (fun n c => 10 * n + (c.toNat - 48)) 0

/-- Python `float(s)` for strings drawn from `[0-9.]+` regex groups,
modelled as an exact rational.  Such a string is a valid float literal
iff it has at most one dot and at least one digit (otherwise `float`
raises `ValueError`, modelled by `none`); its value is the exact decimal,
which is what every comparison performed by the code observes. -/
def pyFloatQ (s : List Char) : Option ℚ :=
  if s.all isNumDot && s.any (·.isDigit) && decide (s.count '.' ≤ 1) then
    let ip := s.takeWhile (· ≠ '.')
    let fp := (s.dropWhile (· ≠ '.')).drop 1
    some (mkRat (digitsToNat (ip ++ fp)) (10 ^ fp.length))
  else none

/-- The shared prelude `^\s*\|(?P<indent>[\|\s-]+)\s+` of both line
patterns: leading whitespace, a literal `|`, then a maximal run of
`[\|\s-]` that is at least two characters and ends in whitespace (so it
can split into a non-empty `indent` and the mandatory `\s+`; the run is
maximal because the next pattern characters, `f` and `w`, lie outside
the class).  Returns the text after the run. -/
def parseIndentRun (cs : List Char) : Option (List Char) :=
  match cs.dropWhile isPySpace with
  | '|' :: s2 =>
    if (s2.takeWhile isIndentChar).length ≥ 2 &&
        (match (s2.takeWhile isIndentChar).reverse with
         | c :: _ => isPySpace c
         | [] => false) then
      some (s2.dropWhile isIndentChar)
    else none
  | _ => none

/-- Embedding of `condition_pattern.match(line)` for
`^\s*\|(?P<indent>[\|\s-]+)\s+(?P<feature>feature_\d+)\s*(?P<op><=|>|<=|>=)\s*(?P<value>[0-9\.]+)\s*$`:
the shared prelude, the feature name, one of the operators `<=`, `>=`,
`>` (the alternation `<=|>|<=|>=` never matches a bare `<`, and `>`
succeeds only when not followed by `=`, since `=` can start neither
`\s*` progress nor `[0-9.]+`), the maximal numeric run, and trailing
whitespace.  Returns the `feature`, `op` and `value` groups. -/
def parseConditionLine (cs : List Char) : Option (String × String × String) :=
  (parseIndentRun cs).bind (fun s3 =>
    if pyStartsWith s3 "feature_".data then
      let s4 := s3.drop 8
      let digits := s4.takeWhile Char.isDigit
      if digits.isEmpty then none else
      let s5 := (s4.drop digits.length).dropWhile isPySpace
      let opRest : Option (String × List Char) :=
        if pyStartsWith s5 "<=".data then some ("<=", s5.drop 2)
        else if pyStartsWith s5 ">=".data then some (">=", s5.drop 2)
        else if pyStartsWith s5 ">".data then some (">", s5.drop 1)
        else none
      match opRest with
      | none => none
      | some (op, s6) =>
        let s7 := s6.dropWhile isPySpace
        let value := s7.takeWhile isNumDot
        if value.isEmpty then none else
        if (s7.drop value.length).all isPySpace then
          some (⟨"feature_".data ++ digits⟩, op, ⟨value⟩)
        else none
    else none)

/-- Embedding of `leaf_pattern.match(line)` for
`^\s*\|(?P<indent>[\|\s-]+)\s+weights:\s*\[(?P<w0>[0-9\.]+),\s*(?P<w1>[0-9\.]+)\]\s+class:\s*(?P<cls>[0-9\.]+)\s*$`,
with the same shared prelude as `parseConditionLine`.
Returns the `w0`, `w1` and `cls` groups. -/
def parseLeafLine (cs : List Char) : Option (List Char × List Char × List Char) :=
  (parseIndentRun cs).bind (fun s3 =>
    if pyStartsWith s3 "weights:".data then
      let s4 := (s3.drop 8).dropWhile isPySpace
      match s4 with
      | '[' :: s5 =>
        let w0 := s5.takeWhile isNumDot
        if w0.isEmpty then none else
        match s5.drop w0.length with
        | ',' :: s6 =>
          let s7 := s6.dropWhile isPySpace
          let w1 := s7.takeWhile isNumDot
          if w1.isEmpty then none else
          match s7.drop w1.length with
          | ']' :: s8 =>
            let wsRun := s8.takeWhile isPySpace
            if wsRun.isEmpty then none else
            let s9 := s8.drop wsRun.length
            if pyStartsWith s9 "class:".data then
              let s10 := (s9.drop 6).dropWhile isPySpace
              let cls := s10.takeWhile isNumDot
              if cls.isEmpty then none else
              if (s10.drop cls.length).all isPySpace then some (w0, w1, cls) else none
            else none
          | _ => none
        | _ => none
      | _ => none
    else none)

/-- `get_depth(line)`: number of occurrences of `"|   "`. -/
def getDepth (line : List Char) : Nat := pyCount line "|   ".data

/-- Parser state of `parse_tree_to_rules`: the `path_stack` of
`(feature, operator, value)` triples and the `rules` accumulator. -/
structure PTState where
  stack : List (String × String × String)
  rules : List String
deriving Repr, DecidableEq

/-- The text form `f"{feat} {op} {val}"` of a stacked condition. -/
def condText : String × String × String → String
  | (f, op, v) => f ++ " " ++ op ++ " " ++ v

/-- The final rule text built for a leaf from the truncated stack. -/
def leafRuleText (stack : List (String × String × String)) (status : String) : String :=
  if stack.isEmpty then "IF <no conditions> THEN " ++ status
  else "IF " ++ ⟨pyJoin " AND ".data (stack.map (fun t => (condText t).data))⟩ ++ " THEN " ++ status

/-- One iteration of the `for line in lines` loop of `parse_tree_to_rules`.
`none` models the `ValueError` raised by `float()` on a matched numeric
group that is not a valid float literal. -/
def stepLine (st : PTState) (line : List Char) : Option PTState :=
  match parseConditionLine line with
  | some cond =>
    let depth := getDepth line
    some ⟨st.stack.take depth ++ [cond], st.rules⟩
  | none =>
    match parseLeafLine line with
    | some (w0, w1, cls) =>
      let depth := getDepth line
      do
        let _ ← pyFloatQ w0
        let _ ← pyFloatQ w1
        let leafClass ← pyFloatQ cls
        let stack' := st.stack.take depth
        let status := if leafClass = 0 then "INLIER" else "OUTLIER"
        pure ⟨stack', st.rules ++ [leafRuleText stack' status]⟩
    | none => some st

/-- A dataset is modelled as its pandas columns: an association list from
column name to the column's numeric values (one entry per row). -/
def Df := List (String × List ℚ)

/-- The raw feature columns of the DataFrame (first match wins, as pandas
column labels are unique). -/
def dfRawCol (df : Df) (c : String) : Option (List ℚ) :=
  (df.find? (fun p => p.1 = c)).map (fun p => p.2)

/-- The numeric view of the boolean `outlier` column the code writes into
the DataFrame (pandas compares `True`/`False` as `1`/`0`). -/
def outlierColQ (flags : List Bool) : List ℚ :=
  flags.map (fun b => if b then 1 else 0)

/-- `df[col]` as seen inside `apply_rules_to_dataset`, after
`df['outlier'] = False` has (re)bound the `outlier` column: the current
flag column for `"outlier"`, the stored column otherwise; `none` models
the `KeyError` on a missing column. -/
def dfCol (df : Df) (flags : List Bool) (c : String) : Option (List ℚ) :=
  if c = "outlier" then some (outlierColQ flags) else dfRawCol df c

/-- `parse_condition(cond)`: strip, then `re.match(r'IF\s*(.*)', ..., IGNORECASE)`
keeps the text after a case-insensitive leading `IF` — `\s*` greedily eats
whitespace (newlines included) and `.*` stops at the first remaining
newline — and the result is stripped again. -/
def parseCondition (cond : List Char) : List Char :=
  let t := pyStrip cond
  match t with
  | a :: b :: rest =>
    if (a = 'I' || a = 'i') && (b = 'F' || b = 'f') then
      pyStrip ((rest.dropWhile isPySpace).takeWhile (· ≠ '\n'))
    else t
  | _ => t

/-- The `\s*(>=|<=|>|<|==)\s*([\d\.]+)` tail of the condition regex after
the closing `$`: skip whitespace, one operator (the alternation's order
collapses to longest-first because `=` can continue neither `\s*` nor
`[\d.]+` after a shorter alternative), skip whitespace, then a non-empty
maximal numeric run (the optional unit group never affects the match). -/
def parseOpNum (cs : List Char) : Option (String × List Char) :=
  let s := cs.dropWhile isPySpace
  let opRest : Option (String × List Char) :=
    if pyStartsWith s ">=".data then some (">=", s.drop 2)
    else if pyStartsWith s "<=".data then some ("<=", s.drop 2)
    else if pyStartsWith s ">".data then some (">", s.drop 1)
    else if pyStartsWith s "<".data then some ("<", s.drop 1)
    else if pyStartsWith s "==".data then some ("==", s.drop 2)
    else none
  match opRest with
  | none => none
  | some (op, s2) =>
    let s3 := s2.dropWhile isPySpace
    let v := s3.takeWhile isNumDot
    if v.isEmpty then none else some (op, v)

/-- The lazy scan for the closing `$` of `\$(.*?)\$…`: the first closing
marker whose tail parses wins; `acc` holds the (reversed) group so far.
The group is matched by `.`, which cannot cross a `'\n'`, so reaching a
newline fails this start position (the surrounding `re.search` then
moves on to later start positions). -/
def findCondClose (acc : List Char) : List Char → Option (List Char × String × List Char)
  | [] => none
  | c :: rest =>
    if c = '\n' then none
    else if c = '$' then
      match parseOpNum rest with
      | some (op, v) => some (acc.reverse, op, v)
      | none => findCondClose (c :: acc) rest
    else findCondClose (c :: acc) rest

/-- `re.search` for `\$(.*?)\$\s*(>=|<=|>|<|==)\s*([\d\.]+)\s*(…unit…)?`:
try each start position left to right; a start must be a `$`, and the lazy
group runs to the earliest closing `$` whose tail parses.  Returns the
column group (between the markers), the operator and the value text. -/
def findCond : List Char → Option (List Char × String × List Char)
  | [] => none
  | c :: rest =>
    if c = '$' then
      match findCondClose [] rest with
      | some r => some r
      | none => findCond rest
    else findCond rest

/-- One comparison `mask &= df[col] OP val` of the per-condition loop;
an operator outside the `if/elif` chain leaves the mask unchanged. -/
def condNarrow (mask : List Bool) (col : List ℚ) (op : String) (v : ℚ) : List Bool :=
  if op = ">" then mask.zipWith (fun m x => m && decide (x > v)) col
  else if op = "<" then mask.zipWith (fun m x => m && decide (x < v)) col
  else if op = ">=" then mask.zipWith (fun m x => m && decide (x ≥ v)) col
  else if op = "<=" then mask.zipWith (fun m x => m && decide (x ≤ v)) col
  else if op = "==" then mask.zipWith (fun m x => m && decide (x = v)) col
  else mask

/-- Body of `for c in conditions`: an unmatched condition is skipped
(`continue`); a matched one narrows the mask after `float(val)` (`none`
models its `ValueError`) and the `df[col]` lookup (`none` models the
`KeyError`). -/
def narrowOne (df : Df) (flags mask : List Bool) (c : List Char) : Option (List Bool) :=
  match findCond c with
  | none => some mask
  | some (colRaw, op, valStr) =>
    let col : String := ⟨pyStrip colRaw⟩
    match pyFloatQ valStr with
    | none => none
    | some v =>
      match dfCol df flags col with
      | none => none
      | some xs => some (condNarrow mask xs op v)

/-- The whole condition loop of one rule. -/
def condsFold (df : Df) (flags : List Bool) : List (List Char) → List Bool → Option (List Bool)
  | [], mask => some mask
  | c :: cs, mask => (narrowOne df flags mask c).bind (condsFold df flags cs)

/-- The conjunct texts of a rule's condition part: `replace('IF','')`,
strip, split on `AND`, then `parse_condition` each. -/
def condsOf (condPart : List Char) : List (List Char) :=
  (pySplit (pyStrip (pyReplace condPart "IF".data [])) "AND".data).map parseCondition

/-- The mask a rule builds (starting from all-true), `none` for a crash:
`rule.split('THEN OUTLIER')` must give exactly two parts (otherwise the
2-tuple unpacking raises `ValueError`), then the condition loop runs. -/
def ruleMask (df : Df) (n : Nat) (flags : List Bool) (rule : String) : Option (List Bool) :=
  match pySplit rule.data "THEN OUTLIER".data with
  | [condPart, _] => condsFold df flags (condsOf condPart) (List.replicate n true)
  | _ => none

/-- Body of `for rule in rules`: rules without `'THEN OUTLIER'` are never
consulted; otherwise the rule's mask is OR-ed into the outlier flags
(`df.loc[mask, 'outlier'] = True`). -/
def processRule (df : Df) (n : Nat) (flags : List Bool) (rule : String) : Option (List Bool) :=
  if strIn rule "THEN OUTLIER" then
    (ruleMask df n flags rule).map (fun mask => flags.zipWith (fun a b => a || b) mask)
  else some flags

/-- The rule loop. -/
def rulesFold (df : Df) (n : Nat) : List String → List Bool → Option (List Bool)
  | [], flags => some flags
  | r :: rs, flags => (processRule df n flags r).bind (rulesFold df n rs)

/-- `apply_rules_to_dataset(rules, df)` restricted to its observable
effect, the `outlier` column: `df['outlier'] = False` then the rule loop
(`n` is `len(df)`, the row count). -/
def applyRulesToDataset (rules : List String) (df : Df) (n : Nat) : Option (List Bool) :=
  rulesFold df n rules (List.replicate n false)

/-! ## `src/api/crew/rule_validation_agent.py` — validate_rules -/

/-- Python values reaching `validate_rules` and the stored rule sets:
strings, lists, or anything else (carrying only `type(x).__name__`,
the single thing the code reads off a non-string element). -/
inductive PyVal where
  | str (s : String)
  | list (xs : List PyVal)
  | other (typeName : String)

/-- `isinstance(x, list)`. -/
def PyVal.isList : PyVal → Bool
  | .list _ => true
  | _ => false

/-- `type(x).__name__` for the non-string elements the error message event
reports (a nested list prints as `list`). -/
def PyVal.pyTypeName : PyVal → String
  | .str _ => "str"
  | .list _ => "list"
  | .other t => t

/-- Count of input OUTLIER rules across `self.rule_sets` (only list-typed
sets and string-typed members are counted). -/
def countOutlierRules (ruleSets : List PyVal) : Nat :=
  ruleSets.foldl
    (fun acc rs =>
      match rs with
      | .list xs =>
        acc + xs.countP (fun r =>
          match r with
          | .str s => strIn s "THEN OUTLIER"
          | _ => false)
      | _ => acc) 0

/-- The errors the per-rule loop contributes for element `i` (0-based in
the model, printed 1-based): non-strings get the type error and are
skipped (`continue`); strings get, in order, the INLIER check, the
`IF … THEN OUTLIER` pattern check, and the ` OR ` check. -/
def elemErrors (i : Nat) (x : PyVal) : List String :=
  match x with
  | .str s =>
    (if strIn s "THEN INLIER" then
      ["Rule " ++ toString (i + 1) ++ " contains INLIER but should only contain OUTLIER: " ++ s]
     else []) ++
    (if !(strStartsWith s "IF " && strIn s "THEN OUTLIER") then
      ["Rule " ++ toString (i + 1) ++ " does not follow pattern 'IF ... THEN OUTLIER': " ++ s]
     else []) ++
    (if strIn s " OR " then
      ["Rule " ++ toString (i + 1) ++ " contains 'OR' which is not allowed: " ++ s]
     else [])
  | x => ["Rule " ++ toString (i + 1) ++ " must be a string, got " ++ x.pyTypeName ++ "."]

/-- The whole `for i, rule in enumerate(rules)` loop, accumulating errors
in element order. -/
def loopErrors (i : Nat) : List PyVal → List String
  | [] => []
  | x :: xs => elemErrors i x ++ loopErrors (i + 1) xs

/-- The completeness-heuristic message (f-string with the rule count). -/
def fewerRulesMsg (count : Nat) : String :=
  "Warning: Output has significantly fewer rules (" ++ toString count ++
    ") than expected. Make sure no valid rules were skipped."

/-- `validate_rules(rules)` of `RuleValidationAgent` (with the agent's
`self.rule_sets` as first argument): returns `(len(errors) == 0, errors)`.
`len(rules) < total * 0.5` is the exact comparison `2 * len(rules) < total`
(multiplying by the float `0.5` is exact). -/
def validateRules (ruleSets : List PyVal) (rules : PyVal) : Bool × List String :=
  match rules with
  | .list xs =>
    if xs.isEmpty then (false, ["No rules found in the output."])
    else
      let errors := loopErrors 0 xs
      let errors :=
        if errors.isEmpty && !ruleSets.isEmpty then
          let total := countOutlierRules ruleSets
          if 2 * xs.length < total && total > 2 then errors ++ [fewerRulesMsg xs.length]
          else errors
        else errors
      (errors.isEmpty, errors)
  | _ => (false, ["Output must be a list of rules."])

/-! ## `src/api/crew/rule_validation_agent.py` — extract_rules_from_output

The method leans on two library facilities that are opaque to the claims
settled here: `re.findall` for the fenced code blocks and `json.loads`.
Both are taken as parameters (`blocks`, `jsonOf`), so every theorem below
holds for the actual Python implementations among all instantiations. -/

/-- The JSON values `json.loads` can hand back, at the granularity the
code inspects them (`other` covers numbers, booleans, null). -/
inductive PyJson where
  | str (s : String)
  | list (xs : List PyJson)
  | obj (fields : List (String × PyJson))
  | other

/-- Dictionary lookup `json_rules["new_rules"]`. -/
def lookupField (fields : List (String × PyJson)) (k : String) : Option PyJson :=
  (fields.find? (fun p => p.1 = k)).map (fun p => p.2)

/-- The rules kept from a JSON list: string entries containing both
`"IF "` and `"THEN OUTLIER"`. -/
def jsonListRules (xs : List PyJson) : List String :=
  xs.filterMap (fun x =>
    match x with
    | .str r => if strIn r "IF " && strIn r "THEN OUTLIER" then some r else none
    | _ => none)

/-- `line.strip('"').strip("'")`. -/
def stripQuotes (l : List Char) : List Char :=
  pyStripChars (pyStripChars l ['"']) [apos]

/-- Per-line handling inside a code block: quoted candidate lines are
unquoted, bare `IF `-lines are kept as they are. -/
def blockLineRule (line : List Char) : Option String :=
  if pyStartsWith (pyStrip line) ['"'] && pyContains (pyStrip line) "IF ".data &&
      pyContains (pyStrip line) "THEN OUTLIER".data then
    some ⟨stripQuotes (pyStrip line)⟩
  else if pyStartsWith (pyStrip line) "IF ".data &&
      pyContains (pyStrip line) "THEN OUTLIER".data then
    some ⟨pyStrip line⟩
  else none

/-- `block.strip().split('\n')` scanned line by line. -/
def blockLines (block : String) : List String :=
  (pySplit (pyStrip block.data) ['\n']).filterMap blockLineRule

/-- Rules contributed by one fenced code block: a parsed JSON list or a
JSON object with a list-valued `new_rules` field short-circuits
(`continue`); every other outcome — parse failure, other JSON shapes, an
object without a list-valued `new_rules` — falls through to the
line-by-line scan of the block. -/
def processBlock (jsonOf : String → Option PyJson) (block : String) : List String :=
  match jsonOf block with
  | some (.list xs) => jsonListRules xs
  | some (.obj fields) =>
    match lookupField fields "new_rules" with
    | some (.list xs) => jsonListRules xs
    | some _ => blockLines block
    | none => blockLines block
  | some _ => blockLines block
  | none => blockLines block

/-- Largest index at which `"THEN OUTLIER\""` starts (the greedy `.*` of
`re.search(r'"(IF.*THEN OUTLIER)"', …)` stretches to the last close). -/
def lastStop (cs : List Char) : Option Nat :=
  match cs with
  | [] => none
  | c :: rest =>
    match lastStop rest with
    | some j => some (j + 1)
    | none => if pyStartsWith (c :: rest) "THEN OUTLIER\"".data then some 0 else none

/-- `re.search(r'"(IF.*THEN OUTLIER)"', line)`: leftmost `"` followed by
`IF` such that some later `THEN OUTLIER"` closes the group; the greedy
`.*` runs to the last such close.  Returns group 1. -/
def searchQuoted : List Char → Option (List Char)
  | [] => none
  | c :: rest =>
    if c = '"' && pyStartsWith rest "IF".data then
      match lastStop (rest.drop 2) with
      | some j => some ('I' :: 'F' :: (rest.drop 2).take (j + 12))
      | none => searchQuoted rest
    else searchQuoted rest

/-- `re.match(r'^\d+\.\s*"IF.*THEN OUTLIER"', line)` as a recognizer:
digits, a dot, optional whitespace, `"IF`, then some `THEN OUTLIER"`
later in the line (lines hold no newline, so `.*` is unrestricted). -/
def numberedMatch (l : List Char) : Bool :=
  let ds := l.takeWhile Char.isDigit
  if ds.isEmpty then false
  else
    match l.drop ds.length with
    | '.' :: r1 =>
      let r2 := r1.dropWhile isPySpace
      pyStartsWith r2 "\"IF".data && pyContains (r2.drop 3) "THEN OUTLIER\"".data
    | _ => false

/-- `re.match(r'^"IF.*THEN OUTLIER"', line)` /
`re.match(r'^\'IF.*THEN OUTLIER\'', line)` as recognizers. -/
def quotedMatch (l : List Char) : Bool :=
  (pyStartsWith l "\"IF".data && pyContains (l.drop 3) "THEN OUTLIER\"".data) ||
  (pyStartsWith l (apos :: "IF".data) && pyContains (l.drop 3) ("THEN OUTLIER".data ++ [apos]))

/-- Per-line handling of the raw text when no code block yielded rules
(`elif` chain: a numbered line that fails the inner `re.search` adds
nothing and does not fall through to the quoted branch). -/
def directLineRule (line : List Char) : Option String :=
  if pyStartsWith (pyStrip line) "IF ".data &&
      pyContains (pyStrip line) "THEN OUTLIER".data then some ⟨pyStrip line⟩
  else if numberedMatch (pyStrip line) then
    (searchQuoted (pyStrip line)).map (fun g => (⟨g⟩ : String))
  else if quotedMatch (pyStrip line) then some ⟨stripQuotes (pyStrip line)⟩
  else none

/-- `extract_rules_from_output(output_text)`, parameterized by the
`re.findall` code-block list and `json.loads` (see the section header). -/
def extractRulesFromOutput (blocks : String → List String)
    (jsonOf : String → Option PyJson) (outputText : String) : List String :=
  let rules := (blocks outputText).foldl (fun acc b => acc ++ processBlock jsonOf b) []
  if rules.isEmpty then
    (pySplit outputText.data ['\n']).filterMap directLineRule
  else rules

/-! ## `src/api/crew/rule_validation_agent.py` — recursive_validate_and_fix -/

/-- An object that may or may not expose a `raw` text attribute (the
code probes `hasattr(…, 'raw')` on `result.output` and on the members of
`result.outputs`). -/
structure OutObj where
  raw : Option String

/-- The shapes `crew_rule_fixer.kickoff()` results are discriminated
into by the code's `isinstance`/`hasattr` tests: a `TaskOutput` (which
always carries `raw`), a `CrewOutput` whose `output` and `outputs`
attributes may each be missing (`none`), or anything else. -/
inductive FixResult where
  | taskOut (raw : String)
  | crewOut (output : Option OutObj) (outputs : Option (List OutObj))
  | other

/-- First member of `result.outputs` exposing a `raw` attribute
(the `for output in result.outputs` loop). -/
def firstRaw : List OutObj → Option String
  | [] => none
  | o :: os =>
    match o.raw with
    | some r => some r
    | none => firstRaw os

/-- `recursive_validate_and_fix(output_text)`: extract, validate, return
the rules when valid; otherwise consume the next oracle fix response and
recurse on whatever text can be unwrapped from it.  The oracle is the
finite list `fixes` of successive `kickoff()` results; once it is
exhausted the remaining responses are treated as carrying no recognizable
content, which the code maps to `[]`.  `none` models the `AttributeError`
raised by the unguarded `result.outputs` access when a `CrewOutput` has
an `output` without `raw` text and no `outputs` attribute. -/
def recursiveValidateAndFix (extract : String → List String) (ruleSets : List PyVal) :
    List FixResult → String → Option (List String)
  | fixes, outputText =>
    let rules := extract outputText
    if (validateRules ruleSets (PyVal.list (rules.map PyVal.str))).1 then some rules
    else
      match fixes with
      | [] => some []
      | fr :: rest =>
        match fr with
        | .taskOut raw => recursiveValidateAndFix extract ruleSets rest raw
        | .crewOut (some o) outs =>
          match o.raw with
          | some r => recursiveValidateAndFix extract ruleSets rest r
          | none =>
            match outs with
            | none => none
            | some l =>
              match firstRaw l with
              | some r => recursiveValidateAndFix extract ruleSets rest r
              | none => some []
        | .crewOut none _ => some []
        | .other => some []

/-! ## Shared lemmas about the string primitives -/

theorem pyStartsWith_iff {s p : List Char} :
    pyStartsWith s p = true ↔ ∃ r, s = p ++ r := by
  induction p generalizing s with
  | nil => simp [pyStartsWith]
  | cons b bs ih =>
    cases s with
    | nil => simp [pyStartsWith]
    | cons a as =>
      simp only [pyStartsWith, Bool.and_eq_true, decide_eq_true_eq, ih]
      constructor
      · rintro ⟨rfl, r, rfl⟩; exact ⟨r, rfl⟩
      · rintro ⟨r, h⟩
        injection h with h1 h2
        exact ⟨h1, r, h2⟩

theorem pyContains_iff {s p : List Char} :
    pyContains s p = true ↔ ∃ a b, s = a ++ p ++ b := by
  induction s with
  | nil =>
    simp only [pyContains, List.isEmpty_iff]
    constructor
    · rintro rfl; exact ⟨[], [], rfl⟩
    · rintro ⟨a, b, h⟩
      rcases List.append_eq_nil.mp h.symm with ⟨h1, h2⟩
      exact (List.append_eq_nil.mp h1).2
  | cons c r ih =>
    simp only [pyContains, Bool.or_eq_true, ih, pyStartsWith_iff]
    constructor
    · rintro (⟨t, ht⟩ | ⟨a, b, hab⟩)
      · exact ⟨[], t, by simp [ht]⟩
      · exact ⟨c :: a, b, by simp [hab]⟩
    · rintro ⟨a, b, hab⟩
      cases a with
      | nil => exact Or.inl ⟨b, by simpa using hab⟩
      | cons a0 as =>
        injection hab with h1 h2
        exact Or.inr ⟨as, b, h2⟩

theorem pyContains_of_decomp (a p b : List Char) :
    pyContains (a ++ p ++ b) p = true :=
  pyContains_iff.mpr ⟨a, b, rfl⟩

/-! ## Claim C9 / C5 — validate_rules -/

theorem elemErrors_str_or_ne_nil (i : Nat) (s : String) (h : strIn s " OR " = true) :
    elemErrors i (PyVal.str s) ≠ [] := by
  intro hcon
  simp only [elemErrors, h, if_true] at hcon
  simp [List.append_eq_nil] at hcon

theorem elemErrors_str_inlier_ne_nil (i : Nat) (s : String)
    (h : strIn s "THEN INLIER" = true) : elemErrors i (PyVal.str s) ≠ [] := by
  intro hcon
  simp only [elemErrors, h, if_true] at hcon
  simp [List.append_eq_nil] at hcon

theorem loopErrors_ne_nil {xs : List PyVal} {x : PyVal} (hx : x ∈ xs)
    (hbad : ∀ j, elemErrors j x ≠ []) : ∀ i, loopErrors i xs ≠ [] := by
  induction xs with
  | nil => cases hx
  | cons y ys ih =>
    intro i hcon
    simp only [loopErrors] at hcon
    rcases List.append_eq_nil.mp hcon with ⟨h1, h2⟩
    rcases List.mem_cons.mp hx with rfl | hmem
    · exact hbad i h1
    · exact ih hmem (i + 1) h2

theorem validateRules_invalid_of_loopErrors {ruleSets : List PyVal} {xs : List PyVal}
    (h : loopErrors 0 xs ≠ []) :
    (validateRules ruleSets (PyVal.list xs)).1 = false ∧
      (validateRules ruleSets (PyVal.list xs)).2 ≠ [] := by
  by_cases hxs : xs.isEmpty
  · simp [validateRules, hxs]
  · have hne : (loopErrors 0 xs).isEmpty = false := by
      cases hl : loopErrors 0 xs with
      | nil => exact absurd hl h
      | cons a l => simp
    simp [validateRules, hxs, hne, h]

/-- C9: `validate_rules` returns an invalid report with a non-empty error
list for any non-list value, for the empty list, for any list containing
an element with the literal `' OR '`, and for any list containing an
element with the literal `'THEN INLIER'` — each independently; and in
general its report is valid iff the error list is empty. -/
theorem claim_C9 :
    (∀ (ruleSets : List PyVal) (v : PyVal), v.isList = false →
      (validateRules ruleSets v).1 = false ∧ (validateRules ruleSets v).2 ≠ []) ∧
    (∀ ruleSets : List PyVal,
      (validateRules ruleSets (PyVal.list [])).1 = false ∧
        (validateRules ruleSets (PyVal.list [])).2 ≠ []) ∧
    (∀ (ruleSets : List PyVal) (xs : List PyVal) (s : String),
      PyVal.str s ∈ xs → strIn s " OR " = true →
      (validateRules ruleSets (PyVal.list xs)).1 = false ∧
        (validateRules ruleSets (PyVal.list xs)).2 ≠ []) ∧
    (∀ (ruleSets : List PyVal) (xs : List PyVal) (s : String),
      PyVal.str s ∈ xs → strIn s "THEN INLIER" = true →
      (validateRules ruleSets (PyVal.list xs)).1 = false ∧
        (validateRules ruleSets (PyVal.list xs)).2 ≠ []) ∧
    (∀ (ruleSets : List PyVal) (v : PyVal),
      (validateRules ruleSets v).1 = true ↔ (validateRules ruleSets v).2 = []) := by
  refine ⟨?_, ?_, ?_, ?_, ?_⟩
  · intro rs v h
    cases v with
    | str s => simp [validateRules]
    | other t => simp [validateRules]
    | list xs => simp [PyVal.isList] at h
  · intro rs
    simp [validateRules]
  · intro rs xs s hmem hor
    exact validateRules_invalid_of_loopErrors
      (loopErrors_ne_nil hmem (fun j => elemErrors_str_or_ne_nil j s hor) 0)
  · intro rs xs s hmem hin
    exact validateRules_invalid_of_loopErrors
      (loopErrors_ne_nil hmem (fun j => elemErrors_str_inlier_ne_nil j s hin) 0)
  · intro rs v
    cases v with
    | str s => simp [validateRules]
    | other t => simp [validateRules]
    | list xs =>
      by_cases hxs : xs.isEmpty
      · simp [validateRules, hxs]
      · simp only [validateRules, hxs, Bool.false_eq_true, if_false, List.isEmpty_iff]

/-- Closed instance of C9 at concrete inputs. -/
theorem claim_C9_witness :
    ((validateRules [] (PyVal.other "int")).1 = false ∧
      (validateRules [] (PyVal.other "int")).2 ≠ []) ∧
    ((validateRules [] (PyVal.list [PyVal.str "IF a OR b THEN OUTLIER"])).1 = false ∧
      (validateRules [] (PyVal.list [PyVal.str "IF a OR b THEN OUTLIER"])).2 ≠ []) :=
  ⟨claim_C9.1 [] (PyVal.other "int") (by decide),
   claim_C9.2.2.1 [] [PyVal.str "IF a OR b THEN OUTLIER"] "IF a OR b THEN OUTLIER"
     (by simp) (by decide)⟩

/-- C5: whenever the supplied source rule sets carry more than 2 OUTLIER
rules in total and the surviving rule list is shorter than half that
total, `validate_rules` reports invalid with a non-empty error list: the
completeness heuristic blocks validation rather than warn. -/
theorem claim_C5 (ruleSets : List PyVal) (xs : List PyVal)
    (h1 : 2 < countOutlierRules ruleSets)
    (h2 : 2 * xs.length < countOutlierRules ruleSets) :
    (validateRules ruleSets (PyVal.list xs)).1 = false ∧
      (validateRules ruleSets (PyVal.list xs)).2 ≠ [] := by
  by_cases hxs : xs.isEmpty
  · simp [validateRules, hxs]
  · by_cases hle : loopErrors 0 xs = []
    · have hrs : ruleSets.isEmpty = false := by
        cases ruleSets with
        | nil => exact absurd h1 (by simp [countOutlierRules])
        | cons a l => simp
      simp [validateRules, hxs, hle, hrs, h1, h2]
    · exact validateRules_invalid_of_loopErrors hle

/-- Closed instance of C5: three source OUTLIER rules, one surviving rule. -/
theorem claim_C5_witness :
    (validateRules
        [PyVal.list [PyVal.str "IF a THEN OUTLIER", PyVal.str "IF b THEN OUTLIER",
          PyVal.str "IF c THEN OUTLIER"]]
        (PyVal.list [PyVal.str "IF a THEN OUTLIER"])).1 = false ∧
      (validateRules
        [PyVal.list [PyVal.str "IF a THEN OUTLIER", PyVal.str "IF b THEN OUTLIER",
          PyVal.str "IF c THEN OUTLIER"]]
        (PyVal.list [PyVal.str "IF a THEN OUTLIER"])).2 ≠ [] :=
  claim_C5 _ _ (by decide) (by decide)

/-! ## Claims C7 / C8 — parse_tree_to_rules -/

theorem pyStartsWith_append_self (p r : List Char) :
    pyStartsWith (p ++ r) p = true :=
  pyStartsWith_iff.mpr ⟨r, rfl⟩

theorem pyStartsWith_append_left {x p : List Char} (y : List Char)
    (h : p.length ≤ x.length) : pyStartsWith (x ++ y) p = pyStartsWith x p := by
  induction p generalizing x with
  | nil => simp [pyStartsWith]
  | cons b bs ih =>
    cases x with
    | nil => simp at h
    | cons a as =>
      simp only [List.cons_append, pyStartsWith, List.append_eq]
      rw [ih (by simpa using h)]

theorem pyEndsWith_append (a b : List Char) : pyEndsWith (a ++ b) b = true := by
  unfold pyEndsWith
  rw [List.reverse_append]
  exact pyStartsWith_append_self _ _

theorem pyEndsWith_append_left {t u : List Char} (a : List Char)
    (h : u.length ≤ t.length) : pyEndsWith (a ++ t) u = pyEndsWith t u := by
  unfold pyEndsWith
  rw [List.reverse_append]
  exact pyStartsWith_append_left _ (by simpa using h)

/-- A line matched by the leaf pattern is not matched by the condition
pattern (after the shared prelude, one expects `weights:`, the other
`feature_`). -/
theorem parseConditionLine_eq_none_of_leaf {cs : List Char}
    {w : List Char × List Char × List Char} (h : parseLeafLine cs = some w) :
    parseConditionLine cs = none := by
  unfold parseLeafLine at h
  unfold parseConditionLine
  cases hr : parseIndentRun cs with
  | none => simp [hr] at h ⊢
  | some s3 =>
    simp only [hr, Option.some_bind] at h ⊢
    by_cases hw : pyStartsWith s3 "weights:".data = true
    · have hf : pyStartsWith s3 "feature_".data = false := by
        rcases pyStartsWith_iff.mp hw with ⟨r, rfl⟩
        simp [pyStartsWith]
      simp [hf]
    · simp [hw] at h

theorem leafRuleText_data_cons (a : String × String × String)
    (l : List (String × String × String)) (status : String) :
    (leafRuleText (a :: l) status).data =
      ("IF ".data ++ pyJoin " AND ".data ((a :: l).map (fun t => (condText t).data))) ++
        (" THEN ".data ++ status.data) := by
  simp [leafRuleText, strDataAppend, List.append_assoc]

theorem leafRuleText_endsWith (stack : List (String × String × String)) :
    strEndsWith (leafRuleText stack "INLIER") "THEN INLIER" = true ∧
    strEndsWith (leafRuleText stack "INLIER") "THEN OUTLIER" = false ∧
    strEndsWith (leafRuleText stack "OUTLIER") "THEN OUTLIER" = true ∧
    strEndsWith (leafRuleText stack "OUTLIER") "THEN INLIER" = false := by
  cases stack with
  | nil => refine ⟨by decide, by decide, by decide, by decide⟩
  | cons a l =>
    refine ⟨?_, ?_, ?_, ?_⟩ <;>
      · show pyEndsWith _ _ = _
        rw [leafRuleText_data_cons, pyEndsWith_append_left _ (by decide)]
        decide

/-- C8: a line matched by the indentation-dialect leaf pattern (with its
numeric groups parsing as floats) makes `parse_tree_to_rules` emit exactly
one rule, whose label reads `THEN INLIER` precisely when the parsed class
value equals 0.0 and `THEN OUTLIER` for every other numeric class value. -/
theorem claim_C8 (st : PTState) (line w0 w1 cls : List Char) (a b q : ℚ)
    (hl : parseLeafLine line = some (w0, w1, cls))
    (h0 : pyFloatQ w0 = some a) (h1 : pyFloatQ w1 = some b)
    (hq : pyFloatQ cls = some q) :
    stepLine st line =
      some ⟨st.stack.take (getDepth line),
            st.rules ++ [leafRuleText (st.stack.take (getDepth line))
                           (if q = 0 then "INLIER" else "OUTLIER")]⟩ ∧
    (strEndsWith (leafRuleText (st.stack.take (getDepth line))
        (if q = 0 then "INLIER" else "OUTLIER")) "THEN INLIER" = true ↔ q = 0) ∧
    (strEndsWith (leafRuleText (st.stack.take (getDepth line))
        (if q = 0 then "INLIER" else "OUTLIER")) "THEN OUTLIER" = true ↔ q ≠ 0) := by
  have hc := parseConditionLine_eq_none_of_leaf hl
  refine ⟨by simp [stepLine, hc, hl, h0, h1, hq], ?_, ?_⟩
  · by_cases h : q = 0 <;>
      simp [h, (leafRuleText_endsWith (st.stack.take (getDepth line))).1,
        (leafRuleText_endsWith (st.stack.take (getDepth line))).2.2.2]
  · by_cases h : q = 0 <;>
      simp [h, (leafRuleText_endsWith (st.stack.take (getDepth line))).2.1,
        (leafRuleText_endsWith (st.stack.take (getDepth line))).2.2.1]

/-- Closed instance of C8 at an OUTLIER leaf (class 1.0) under one open
condition. -/
theorem claim_C8_witness :
    stepLine ⟨[("feature_2", "<=", "7.5")], []⟩
        "|   |--- weights: [0.00, 3.00] class: 1.0".data =
      some ⟨[("feature_2", "<=", "7.5")],
            [leafRuleText [("feature_2", "<=", "7.5")]
               (if (1 : ℚ) = 0 then "INLIER" else "OUTLIER")]⟩ ∧
    (strEndsWith (leafRuleText [("feature_2", "<=", "7.5")]
        (if (1 : ℚ) = 0 then "INLIER" else "OUTLIER")) "THEN INLIER" = true ↔ (1 : ℚ) = 0) ∧
    (strEndsWith (leafRuleText [("feature_2", "<=", "7.5")]
        (if (1 : ℚ) = 0 then "INLIER" else "OUTLIER")) "THEN OUTLIER" = true ↔ (1 : ℚ) ≠ 0) :=
  claim_C8 ⟨[("feature_2", "<=", "7.5")], []⟩
    "|   |--- weights: [0.00, 3.00] class: 1.0".data
    "0.00".data "3.00".data "1.0".data 0 3 1
    (by decide) (by decide) (by decide) (by decide)

/-! ## Claim C1 — crash behaviour of the core operations -/

/-- Feature texts the inversion law speaks about: texts holding no
space-then-comparison pair `" <"` or `" >"`, so a space-delimited
operator token can match only at the operator itself.  This covers the
dialect's real column names — spaces, brackets and even an unspaced
comparison sign (as in `p>100 bar`) included. -/
def featureTame (s : String) : Bool :=
  !(pyContains s.data [' ', '<']) && !(pyContains s.data [' ', '>'])

/-- Threshold texts the inversion law speaks about: no space and no
comparison characters. -/
def tameThreshold (s : String) : Bool :=
  s.data.all (fun c => c != ' ' && c != '>' && c != '<')

theorem pyStartsWith_cons_ne {a b : Char} (h : b ≠ a) (rest p : List Char) :
    pyStartsWith (b :: rest) (a :: p) = false := by
  simp only [pyStartsWith, Bool.and_eq_false_iff, decide_eq_false_iff_not]
  exact Or.inl h

/-- A head-mismatch statement usable through `∀`-hypotheses on whole
lists: a pattern starting with a character absent from `t` matches at no
position of `t`. -/
theorem pyStartsWith_head_ne {t : List Char} {a : Char} (p : List Char)
    (h : ∀ c ∈ t, c ≠ a) : pyStartsWith t (a :: p) = false := by
  cases t with
  | nil => rfl
  | cons c rest => exact pyStartsWith_cons_ne (h c (List.mem_cons_self c rest)) rest p

theorem pyContains_nospace {t : List Char} (p : List Char)
    (h : ∀ c ∈ t, c ≠ ' ') : pyContains t (' ' :: p) = false := by
  induction t with
  | nil => rfl
  | cons c rest ih =>
    simp only [pyContains, Bool.or_eq_false_iff]
    constructor
    · exact pyStartsWith_head_ne p h
    · exact ih (fun x hx => h x (List.mem_cons_of_mem c hx))

theorem pyStartsWith_cons_same (a : Char) (s p : List Char) :
    pyStartsWith (a :: s) (a :: p) = pyStartsWith s p := by
  simp [pyStartsWith]

theorem pyContains_tail_false {s pat : List Char} {c : Char}
    (h : pyContains (c :: s) pat = false) : pyContains s pat = false := by
  simp only [pyContains, Bool.or_eq_false_iff] at h
  exact h.2

/-- A pattern `' ' :: x :: ps` matches neither inside a pair-free text
`c :: fs` nor straddling its boundary with a following space. -/
theorem startsWith_pairFree {x : Char} (hx : x ≠ ' ') (c : Char) :
    ∀ (fs r ps : List Char), pyContains (c :: fs) [' ', x] = false →
      pyStartsWith ((c :: fs) ++ ' ' :: r) (' ' :: x :: ps) = false := by
  intro fs r ps hnp
  by_cases hc : c = ' '
  · subst hc
    show pyStartsWith (' ' :: (fs ++ ' ' :: r)) (' ' :: x :: ps) = false
    rw [pyStartsWith_cons_same]
    cases fs with
    | nil => exact pyStartsWith_cons_ne (Ne.symm hx) r ps
    | cons d fs2 =>
      have hd : d ≠ x := by
        intro he
        subst he
        simp [pyContains, pyStartsWith] at hnp
      exact pyStartsWith_cons_ne hd _ ps
  · exact pyStartsWith_cons_ne hc _ _

/-- Containment of `' ' :: x :: ps` in `f ++ ' ' :: r` reduces to
containment from the boundary space on when `f` holds no `[' ', x]`
pair. -/
theorem pyContains_pairFree_append {x : Char} (hx : x ≠ ' ') :
    ∀ (f r ps : List Char), pyContains f [' ', x] = false →
      pyContains (f ++ ' ' :: r) (' ' :: x :: ps) =
        pyContains (' ' :: r) (' ' :: x :: ps) := by
  intro f
  induction f with
  | nil => intro r ps _; rfl
  | cons c fs ih =>
    intro r ps hnp
    show (pyStartsWith ((c :: fs) ++ ' ' :: r) (' ' :: x :: ps) ||
        pyContains (fs ++ ' ' :: r) (' ' :: x :: ps)) = _
    rw [startsWith_pairFree hx c fs r ps hnp, Bool.false_or]
    exact ih r ps (pyContains_tail_false hnp)

theorem pyReplaceAux_skip (pat rep : List Char) :
    ∀ (x rest : List Char), pyReplaceAux pat rep (x ++ rest) x.length =
      pyReplaceAux pat rep rest 0 := by
  intro x
  induction x with
  | nil => intro rest; rfl
  | cons c cs ih => intro rest; exact ih rest

/-- The replacement scanner passes over a pair-free `f` untouched when
the pattern is `' ' :: x :: ps` and the text continues with a space. -/
theorem pyReplaceAux_pairFree_pass {x : Char} (hx : x ≠ ' ') :
    ∀ (f r ps rep : List Char), pyContains f [' ', x] = false →
      pyReplaceAux (' ' :: x :: ps) rep (f ++ ' ' :: r) 0 =
        f ++ pyReplaceAux (' ' :: x :: ps) rep (' ' :: r) 0 := by
  intro f
  induction f with
  | nil => intro r ps rep _; rfl
  | cons c fs ih =>
    intro r ps rep hnp
    show (if pyStartsWith ((c :: fs) ++ ' ' :: r) (' ' :: x :: ps) = true then
        rep ++ pyReplaceAux (' ' :: x :: ps) rep (fs ++ ' ' :: r) ((' ' :: x :: ps).length - 1)
      else c :: pyReplaceAux (' ' :: x :: ps) rep (fs ++ ' ' :: r) 0) =
      (c :: fs) ++ pyReplaceAux (' ' :: x :: ps) rep (' ' :: r) 0
    rw [startsWith_pairFree hx c fs r ps hnp]
    simp only [Bool.false_eq_true, if_false]
    rw [ih r ps rep (pyContains_tail_false hnp)]
    rfl

theorem pyReplaceAux_head_match (q : Char) (qs rep t : List Char) :
    pyReplaceAux (q :: qs) rep ((q :: qs) ++ t) 0 =
      rep ++ pyReplaceAux (q :: qs) rep t 0 := by
  show (if pyStartsWith ((q :: qs) ++ t) (q :: qs) = true then
      rep ++ pyReplaceAux (q :: qs) rep (qs ++ t) ((q :: qs).length - 1)
    else q :: pyReplaceAux (q :: qs) rep (qs ++ t) 0) =
    rep ++ pyReplaceAux (q :: qs) rep t 0
  rw [pyStartsWith_append_self (q :: qs) t]
  simp only [if_true, List.length_cons, Nat.add_sub_cancel]
  rw [pyReplaceAux_skip (q :: qs) rep qs t]

theorem pyReplaceAux_nospace_all {t : List Char} (rep p : List Char)
    (h : ∀ c ∈ t, c ≠ ' ') : pyReplaceAux (' ' :: p) rep t 0 = t := by
  induction t with
  | nil => rfl
  | cons c rest ih =>
    show (if pyStartsWith (c :: rest) (' ' :: p) = true then
        rep ++ pyReplaceAux (' ' :: p) rep rest ((' ' :: p).length - 1)
      else c :: pyReplaceAux (' ' :: p) rep rest 0) = c :: rest
    rw [pyStartsWith_cons_ne (h c (List.mem_cons_self c rest)) _ p]
    simp only [Bool.false_eq_true, if_false]
    rw [ih (fun x hx => h x (List.mem_cons_of_mem c hx))]

theorem pyContains_cons_false {pat s : List Char} {c : Char}
    (h1 : pyStartsWith (c :: s) pat = false) (h2 : pyContains s pat = false) :
    pyContains (c :: s) pat = false := by
  simp [pyContains, h1, h2]

/-- The cross-operator non-containment facts behind
`invert_comparison_operators`'s `elif` ladder: with a space-free,
comparison-free threshold text after it, an operator token does not
contain any of the operator tokens checked before it. -/
theorem containsOp_false {t : List Char}
    (hsp : ∀ c ∈ t, c ≠ ' ') (hgt : ∀ c ∈ t, c ≠ '>') (hlt : ∀ c ∈ t, c ≠ '<') :
    pyContains (" <= ".data ++ t) " >= ".data = false ∧
    pyContains (" > ".data ++ t) " >= ".data = false ∧
    pyContains (" > ".data ++ t) " <= ".data = false ∧
    pyContains (" < ".data ++ t) " >= ".data = false ∧
    pyContains (" < ".data ++ t) " <= ".data = false ∧
    pyContains (" < ".data ++ t) " > ".data = false := by
  refine ⟨?_, ?_, ?_, ?_, ?_, ?_⟩
  · show pyContains (' ' :: '<' :: '=' :: ' ' :: t) (' ' :: '>' :: '=' :: [' ']) = false
    refine pyContains_cons_false ?_ (pyContains_cons_false ?_ (pyContains_cons_false ?_
      (pyContains_cons_false ?_ (pyContains_nospace _ hsp))))
    · rw [pyStartsWith_cons_same]; exact pyStartsWith_cons_ne (by decide) _ _
    · exact pyStartsWith_cons_ne (by decide) _ _
    · exact pyStartsWith_cons_ne (by decide) _ _
    · rw [pyStartsWith_cons_same]; exact pyStartsWith_head_ne _ hgt
  · show pyContains (' ' :: '>' :: ' ' :: t) (' ' :: '>' :: '=' :: [' ']) = false
    refine pyContains_cons_false ?_ (pyContains_cons_false ?_ (pyContains_cons_false ?_
      (pyContains_nospace _ hsp)))
    · rw [pyStartsWith_cons_same, pyStartsWith_cons_same]
      exact pyStartsWith_cons_ne (by decide) _ _
    · exact pyStartsWith_cons_ne (by decide) _ _
    · rw [pyStartsWith_cons_same]; exact pyStartsWith_head_ne _ hgt
  · show pyContains (' ' :: '>' :: ' ' :: t) (' ' :: '<' :: '=' :: [' ']) = false
    refine pyContains_cons_false ?_ (pyContains_cons_false ?_ (pyContains_cons_false ?_
      (pyContains_nospace _ hsp)))
    · rw [pyStartsWith_cons_same]; exact pyStartsWith_cons_ne (by decide) _ _
    · exact pyStartsWith_cons_ne (by decide) _ _
    · rw [pyStartsWith_cons_same]; exact pyStartsWith_head_ne _ hlt
  · show pyContains (' ' :: '<' :: ' ' :: t) (' ' :: '>' :: '=' :: [' ']) = false
    refine pyContains_cons_false ?_ (pyContains_cons_false ?_ (pyContains_cons_false ?_
      (pyContains_nospace _ hsp)))
    · rw [pyStartsWith_cons_same]; exact pyStartsWith_cons_ne (by decide) _ _
    · exact pyStartsWith_cons_ne (by decide) _ _
    · rw [pyStartsWith_cons_same]; exact pyStartsWith_head_ne _ hgt
  · show pyContains (' ' :: '<' :: ' ' :: t) (' ' :: '<' :: '=' :: [' ']) = false
    refine pyContains_cons_false ?_ (pyContains_cons_false ?_ (pyContains_cons_false ?_
      (pyContains_nospace _ hsp)))
    · rw [pyStartsWith_cons_same, pyStartsWith_cons_same]
      exact pyStartsWith_cons_ne (by decide) _ _
    · exact pyStartsWith_cons_ne (by decide) _ _
    · rw [pyStartsWith_cons_same]; exact pyStartsWith_head_ne _ hlt
  · show pyContains (' ' :: '<' :: ' ' :: t) (' ' :: '>' :: [' ']) = false
    refine pyContains_cons_false ?_ (pyContains_cons_false ?_ (pyContains_cons_false ?_
      (pyContains_nospace _ hsp)))
    · rw [pyStartsWith_cons_same]; exact pyStartsWith_cons_ne (by decide) _ _
    · exact pyStartsWith_cons_ne (by decide) _ _
    · rw [pyStartsWith_cons_same]; exact pyStartsWith_head_ne _ hgt

theorem featureTame_spec {f : String} (h : featureTame f = true) :
    pyContains f.data [' ', '<'] = false ∧ pyContains f.data [' ', '>'] = false := by
  simp only [featureTame, Bool.and_eq_true, Bool.not_eq_true'] at h
  exact h

theorem tameThreshold_spec {t : String} (h : tameThreshold t = true) :
    (∀ c ∈ t.data, c ≠ ' ') ∧ (∀ c ∈ t.data, c ≠ '>') ∧ (∀ c ∈ t.data, c ≠ '<') := by
  simp only [tameThreshold, List.all_eq_true, Bool.and_eq_true, bne_iff_ne] at h
  exact ⟨fun c hc => (h c hc).1.1, fun c hc => (h c hc).1.2, fun c hc => (h c hc).2⟩

theorem strIn_op (f t : String) (op : List Char) :
    strIn (f ++ (⟨op⟩ : String) ++ t) (⟨op⟩ : String) = true := by
  show pyContains ((f ++ (⟨op⟩ : String)) ++ t).data op = true
  have e : ((f ++ (⟨op⟩ : String)) ++ t).data = (f.data ++ op) ++ t.data := rfl
  rw [e]
  exact pyContains_of_decomp f.data op t.data

theorem strIn_op_false (f t : String) (op : List Char) {x : Char} (ps : List Char)
    (hx : x ≠ ' ') (hnp : pyContains f.data [' ', x] = false)
    (hop : op = ' ' :: op.tail)
    (h : pyContains (op ++ t.data) (' ' :: x :: ps) = false) :
    strIn (f ++ (⟨op⟩ : String) ++ t) (⟨' ' :: x :: ps⟩ : String) = false := by
  show pyContains ((f ++ (⟨op⟩ : String)) ++ t).data (' ' :: x :: ps) = false
  have e : ((f ++ (⟨op⟩ : String)) ++ t).data = f.data ++ (op ++ t.data) := by
    show (f.data ++ op) ++ t.data = _
    exact List.append_assoc _ _ _
  rw [e, hop]
  show pyContains (f.data ++ ' ' :: (op.tail ++ t.data)) (' ' :: x :: ps) = false
  rw [pyContains_pairFree_append hx f.data (op.tail ++ t.data) ps hnp]
  show pyContains ((' ' :: op.tail) ++ t.data) (' ' :: x :: ps) = false
  rw [← hop]
  exact h

theorem strReplace_op (f t : String) {x : Char} (qs rep : List Char)
    (hx : x ≠ ' ') (hnp : pyContains f.data [' ', x] = false)
    (hsp : ∀ c ∈ t.data, c ≠ ' ') :
    strReplace (f ++ (⟨' ' :: x :: qs⟩ : String) ++ t) (⟨' ' :: x :: qs⟩ : String)
        (⟨rep⟩ : String) = f ++ (⟨rep⟩ : String) ++ t := by
  show (⟨pyReplaceAux (' ' :: x :: qs) rep
      ((f ++ (⟨' ' :: x :: qs⟩ : String)) ++ t).data 0⟩ : String) = _
  have e : ((f ++ (⟨' ' :: x :: qs⟩ : String)) ++ t).data
      = f.data ++ ((' ' :: x :: qs) ++ t.data) := by
    show (f.data ++ (' ' :: x :: qs)) ++ t.data = _
    exact List.append_assoc _ _ _
  rw [e]
  show (⟨pyReplaceAux (' ' :: x :: qs) rep
      (f.data ++ ' ' :: (x :: qs ++ t.data)) 0⟩ : String) = _
  rw [pyReplaceAux_pairFree_pass hx f.data (x :: qs ++ t.data) qs rep hnp]
  show (⟨f.data ++ pyReplaceAux (' ' :: x :: qs) rep
      ((' ' :: x :: qs) ++ t.data) 0⟩ : String) = _
  rw [pyReplaceAux_head_match ' ' (x :: qs) rep t.data,
    pyReplaceAux_nospace_all rep (x :: qs) hsp]
  show (⟨f.data ++ (rep ++ t.data)⟩ : String) = ⟨(f.data ++ rep) ++ t.data⟩
  exact congrArg String.mk (List.append_assoc _ _ _).symm

theorem invert_ge (f t : String) (hf : featureTame f = true) (ht : tameThreshold t = true) :
    invertComparisonOperators (f ++ " >= " ++ t) = f ++ " < " ++ t := by
  obtain ⟨hlt, hgt⟩ := featureTame_spec hf
  obtain ⟨hsp, hgtT, hltT⟩ := tameThreshold_spec ht
  have hc : strIn (f ++ " >= " ++ t) " >= " = true := strIn_op f t " >= ".data
  unfold invertComparisonOperators
  rw [if_pos hc]
  exact strReplace_op f t ['=', ' '] " < ".data (show ('>' : Char) ≠ ' ' by decide) hgt hsp

theorem invert_le (f t : String) (hf : featureTame f = true) (ht : tameThreshold t = true) :
    invertComparisonOperators (f ++ " <= " ++ t) = f ++ " > " ++ t := by
  obtain ⟨hlt, hgt⟩ := featureTame_spec hf
  obtain ⟨hsp, hgtT, hltT⟩ := tameThreshold_spec ht
  have h1 : strIn (f ++ " <= " ++ t) " >= " = false :=
    strIn_op_false f t " <= ".data ['=', ' '] (show ('>' : Char) ≠ ' ' by decide) hgt rfl
      (containsOp_false hsp hgtT hltT).1
  have h2 : strIn (f ++ " <= " ++ t) " <= " = true := strIn_op f t " <= ".data
  unfold invertComparisonOperators
  rw [h1, h2]
  simp only [Bool.false_eq_true, if_false, if_true]
  exact strReplace_op f t ['=', ' '] " > ".data (show ('<' : Char) ≠ ' ' by decide) hlt hsp

theorem invert_gt (f t : String) (hf : featureTame f = true) (ht : tameThreshold t = true) :
    invertComparisonOperators (f ++ " > " ++ t) = f ++ " <= " ++ t := by
  obtain ⟨hlt, hgt⟩ := featureTame_spec hf
  obtain ⟨hsp, hgtT, hltT⟩ := tameThreshold_spec ht
  have h1 : strIn (f ++ " > " ++ t) " >= " = false :=
    strIn_op_false f t " > ".data ['=', ' '] (show ('>' : Char) ≠ ' ' by decide) hgt rfl
      (containsOp_false hsp hgtT hltT).2.1
  have h2 : strIn (f ++ " > " ++ t) " <= " = false :=
    strIn_op_false f t " > ".data ['=', ' '] (show ('<' : Char) ≠ ' ' by decide) hlt rfl
      (containsOp_false hsp hgtT hltT).2.2.1
  have h3 : strIn (f ++ " > " ++ t) " > " = true := strIn_op f t " > ".data
  unfold invertComparisonOperators
  rw [h1, h2, h3]
  simp only [Bool.false_eq_true, if_false, if_true]
  exact strReplace_op f t [' '] " <= ".data (show ('>' : Char) ≠ ' ' by decide) hgt hsp

theorem invert_lt (f t : String) (hf : featureTame f = true) (ht : tameThreshold t = true) :
    invertComparisonOperators (f ++ " < " ++ t) = f ++ " >= " ++ t := by
  obtain ⟨hlt, hgt⟩ := featureTame_spec hf
  obtain ⟨hsp, hgtT, hltT⟩ := tameThreshold_spec ht
  have h1 : strIn (f ++ " < " ++ t) " >= " = false :=
    strIn_op_false f t " < ".data ['=', ' '] (show ('>' : Char) ≠ ' ' by decide) hgt rfl
      (containsOp_false hsp hgtT hltT).2.2.2.1
  have h2 : strIn (f ++ " < " ++ t) " <= " = false :=
    strIn_op_false f t " < ".data ['=', ' '] (show ('<' : Char) ≠ ' ' by decide) hlt rfl
      (containsOp_false hsp hgtT hltT).2.2.2.2.1
  have h3 : strIn (f ++ " < " ++ t) " > " = false :=
    strIn_op_false f t " < ".data [' '] (show ('>' : Char) ≠ ' ' by decide) hgt rfl
      (containsOp_false hsp hgtT hltT).2.2.2.2.2
  have h4 : strIn (f ++ " < " ++ t) " < " = true := strIn_op f t " < ".data
  unfold invertComparisonOperators
  rw [h1, h2, h3, h4]
  simp only [Bool.false_eq_true, if_false, if_true]
  exact strReplace_op f t [' '] " >= ".data (show ('<' : Char) ≠ ' ' by decide) hlt hsp

/-- C6: at every internal split of the recursive dialect — root or
non-root — `extract_rules` hands the left child the operator-inversion of
the condition text it hands the right child; and on split texts of the
dialect's `feature OP threshold` shape — the feature any text free of a
space-then-comparison pair, which admits the dialect's real column names,
spaces, brackets and inline comparison signs included — that inversion
keeps the feature and threshold identical and maps `>=` to `<`, `<=` to
`>`, `>` to `<=` and `<` to `>=`. -/
theorem claim_C6 :
    (∀ (v : String) (l r : TreeNode) (rule : String),
      extractRulesNode (TreeNode.node2 v l r false) rule =
        (extractRulesNode l (rule ++ " AND " ++ invertComparisonOperators v)).bind
          (fun ls => (extractRulesNode r (rule ++ " AND " ++ v)).map (fun rs => ls ++ rs))) ∧
    (∀ (v : String) (l r : TreeNode) (rule : String),
      extractRulesNode (TreeNode.node2 v l r true) rule =
        (extractRulesNode l ("IF " ++ invertComparisonOperators v)).bind
          (fun ls => (extractRulesNode r ("IF " ++ v)).map (fun rs => ls ++ rs))) ∧
    (∀ f t : String, featureTame f = true → tameThreshold t = true →
      invertComparisonOperators (f ++ " >= " ++ t) = f ++ " < " ++ t ∧
      invertComparisonOperators (f ++ " <= " ++ t) = f ++ " > " ++ t ∧
      invertComparisonOperators (f ++ " > " ++ t) = f ++ " <= " ++ t ∧
      invertComparisonOperators (f ++ " < " ++ t) = f ++ " >= " ++ t) := by
  refine ⟨?_, ?_, ?_⟩
  · intro v l r rule
    simp only [extractRulesNode, Bool.false_eq_true, if_false]
    cases extractRulesNode l (rule ++ " AND " ++ invertComparisonOperators v) with
    | none => rfl
    | some ls =>
      cases extractRulesNode r (rule ++ " AND " ++ v) with
      | none => rfl
      | some rs => rfl
  · intro v l r rule
    simp only [extractRulesNode, if_true]
    cases extractRulesNode l ("IF " ++ invertComparisonOperators v) with
    | none => rfl
    | some ls =>
      cases extractRulesNode r ("IF " ++ v) with
      | none => rfl
      | some rs => rfl
  · intro f t hf ht
    exact ⟨invert_ge f t hf ht, invert_le f t hf ht, invert_gt f t hf ht, invert_lt f t hf ht⟩

/-- Closed instance of C6 at a concrete split node and the concrete
split text `Distance [km] <= 685.50` over one of the dialect's real,
space-bearing column names. -/
theorem claim_C6_witness :
    (extractRulesNode
        (TreeNode.node2 "att2 >= 3.16" (TreeNode.node0 "Val: 1.000 (leaf)" false)
          (TreeNode.node0 "Val: 0.000 (leaf)" false) true) "" =
      (extractRulesNode (TreeNode.node0 "Val: 1.000 (leaf)" false)
          ("IF " ++ invertComparisonOperators "att2 >= 3.16")).bind
        (fun ls => (extractRulesNode (TreeNode.node0 "Val: 0.000 (leaf)" false)
            ("IF " ++ "att2 >= 3.16")).map (fun rs => ls ++ rs))) ∧
    invertComparisonOperators ("Distance [km]" ++ " <= " ++ "685.50")
      = "Distance [km]" ++ " > " ++ "685.50" :=
  ⟨claim_C6.2.1 "att2 >= 3.16" (TreeNode.node0 "Val: 1.000 (leaf)" false)
      (TreeNode.node0 "Val: 0.000 (leaf)" false) "",
   (claim_C6.2.2 "Distance [km]" "685.50" (by decide) (by decide)).2.1⟩

/-! ## Claims C2 / C3 — apply_rules_to_dataset -/

/-- Well-formed DataFrames: every column holds one value per row. -/
def dfOk (df : Df) (n : Nat) : Bool := df.all (fun p => p.2.length == n)

theorem dfCol_length {df : Df} {n : Nat} {flags : List Bool} {c : String}
    {xs : List ℚ} (hdf : dfOk df n = true) (hfl : flags.length = n)
    (h : dfCol df flags c = some xs) : xs.length = n := by
  unfold dfCol at h
  by_cases hc : c = "outlier"
  · rw [if_pos hc] at h
    cases h
    simp [outlierColQ, hfl]
  · rw [if_neg hc] at h
    unfold dfRawCol at h
    cases hf : df.find? (fun p => p.1 = c) with
    | none => rw [hf] at h; cases h
    | some p =>
      rw [hf] at h
      cases h
      have hmem := List.mem_of_find?_eq_some hf
      have := (List.all_eq_true.mp hdf) p hmem
      simpa using this

theorem condNarrow_length {mask : List Bool} {col : List ℚ} {n : Nat}
    (hm : mask.length = n) (hc : col.length = n) (op : String) (v : ℚ) :
    (condNarrow mask col op v).length = n := by
  unfold condNarrow
  split_ifs <;> simp [List.length_zipWith, hm, hc]

theorem narrowOne_length {df : Df} {n : Nat} {flags mask mask' : List Bool}
    {c : List Char} (hdf : dfOk df n = true) (hfl : flags.length = n)
    (hm : mask.length = n) (h : narrowOne df flags mask c = some mask') :
    mask'.length = n := by
  unfold narrowOne at h
  cases hf : findCond c with
  | none => rw [hf] at h; cases h; exact hm
  | some t =>
    obtain ⟨colRaw, op, valStr⟩ := t
    rw [hf] at h
    dsimp only at h
    cases hv : pyFloatQ valStr with
    | none => rw [hv] at h; cases h
    | some v =>
      rw [hv] at h
      cases hcol : dfCol df flags (⟨pyStrip colRaw⟩ : String) with
      | none => rw [hcol] at h; cases h
      | some xs =>
        rw [hcol] at h
        cases h
        exact condNarrow_length hm (dfCol_length hdf hfl hcol) op v

theorem condsFold_length {df : Df} {n : Nat} {flags : List Bool}
    (hdf : dfOk df n = true) (hfl : flags.length = n) :
    ∀ (cs : List (List Char)) (mask mask' : List Bool), mask.length = n →
      condsFold df flags cs mask = some mask' → mask'.length = n := by
  intro cs
  induction cs with
  | nil => intro mask mask' hm h; cases h; exact hm
  | cons c rest ih =>
    intro mask mask' hm h
    unfold condsFold at h
    cases hn : narrowOne df flags mask c with
    | none => rw [hn] at h; cases h
    | some m2 =>
      rw [hn] at h
      exact ih m2 mask' (narrowOne_length hdf hfl hm hn) h

theorem ruleMask_length {df : Df} {n : Nat} {flags m : List Bool} {rule : String}
    (hdf : dfOk df n = true) (hfl : flags.length = n)
    (h : ruleMask df n flags rule = some m) : m.length = n := by
  unfold ruleMask at h
  cases hp : pySplit rule.data "THEN OUTLIER".data with
  | nil => rw [hp] at h; cases h
  | cons a parts =>
    cases parts with
    | nil => rw [hp] at h; cases h
    | cons b parts2 =>
      cases parts2 with
      | nil =>
        rw [hp] at h
        exact condsFold_length hdf hfl (condsOf a) _ m (by simp) h
      | cons d parts3 => rw [hp] at h; cases h

/-- The single response shape on which the fix handler dereferences a
missing attribute (`result.outputs` is read with no `hasattr` guard): a
`CrewOutput` with an `output` that has no `raw`, and no `outputs`. -/
def isCrashShape : FixResult → Bool
  | .crewOut (some o) none => o.raw.isNone
  | _ => false

/-- C4 counterexample: with an empty extraction, validation fails, a fix
is requested, and the fix response of the crash shape raises
(`AttributeError` on `result.outputs`) instead of degrading to `[]`. -/
theorem claim_C4_counterexample :
    recursiveValidateAndFix (extractRulesFromOutput (fun _ => []) (fun _ => none)) []
      [FixResult.crewOut (some ⟨none⟩) none] "" = none := by decide

/-- Unfolding equation of `recursiveValidateAndFix` (definitional). -/
theorem rvf_eq (extract : String → List String) (ruleSets : List PyVal)
    (fixes : List FixResult) (text : String) :
    recursiveValidateAndFix extract ruleSets fixes text =
      (if (validateRules ruleSets (PyVal.list ((extract text).map PyVal.str))).1 then
        some (extract text)
      else
        match fixes with
        | [] => some []
        | fr :: rest =>
          match fr with
          | .taskOut raw => recursiveValidateAndFix extract ruleSets rest raw
          | .crewOut (some o) outs =>
            match o.raw with
            | some r => recursiveValidateAndFix extract ruleSets rest r
            | none =>
              match outs with
              | none => none
              | some l =>
                match firstRaw l with
                | some r => recursiveValidateAndFix extract ruleSets rest r
                | none => some []
          | .crewOut none _ => some []
          | .other => some []) := by
  cases fixes with
  | nil => rfl
  | cons fr rest => rfl

/-- C4 (amended): `recursive_validate_and_fix` returns normally with
every failure mode degrading to the empty sequence for every oracle
interaction that never produces the crash shape (a `CrewOutput` exposing
an `output` without raw text and lacking an `outputs` collection, on
which it raises); in particular a response matching no known shape
terminates the run with the empty sequence. -/
theorem claim_C4 :
    (∀ (extract : String → List String) (ruleSets : List PyVal) (fixes : List FixResult)
        (text : String), (∀ fr ∈ fixes, isCrashShape fr = false) →
      (recursiveValidateAndFix extract ruleSets fixes text).isSome = true) ∧
    (∀ (extract : String → List String) (ruleSets : List PyVal) (rest : List FixResult)
        (fr : FixResult) (text : String),
      (validateRules ruleSets (PyVal.list ((extract text).map PyVal.str))).1 = false →
      (fr = FixResult.other ∨ ∃ outs, fr = FixResult.crewOut none outs) →
      recursiveValidateAndFix extract ruleSets (fr :: rest) text = some []) := by
  constructor
  · intro extract ruleSets fixes
    induction fixes with
    | nil =>
      intro text _
      rw [rvf_eq]
      split <;> rfl
    | cons fr rest ih =>
      intro text h
      have hrest := fun x hx => h x (List.mem_cons_of_mem fr hx)
      rw [rvf_eq]
      split
      · rfl
      · cases fr with
        | taskOut raw => exact ih raw hrest
        | other => rfl
        | crewOut output outs =>
          cases output with
          | none => rfl
          | some o =>
            dsimp only
            cases ho : o.raw with
            | some rr =>
              dsimp only
              exact ih rr hrest
            | none =>
              dsimp only
              cases outs with
              | none =>
                exfalso
                have hc := h _ (List.mem_cons_self _ rest)
                rw [show isCrashShape (FixResult.crewOut (some o) none) = o.raw.isNone
                    from rfl, ho] at hc
                simp at hc
              | some l =>
                dsimp only
                cases hfr : firstRaw l with
                | some rr =>
                  dsimp only
                  exact ih rr hrest
                | none => rfl
  · intro extract ruleSets rest fr text hval hshape
    rw [rvf_eq, hval]
    rcases hshape with rfl | ⟨outs, rfl⟩ <;> rfl

/-- Closed instance of C4's amended statement: a crash-free fix sequence
returns normally, and an unrecognized response yields `[]`. -/
theorem claim_C4_witness :
    (recursiveValidateAndFix (extractRulesFromOutput (fun _ => []) (fun _ => none)) []
        [FixResult.taskOut "IF x THEN OUTLIER"] "").isSome = true ∧
    recursiveValidateAndFix (extractRulesFromOutput (fun _ => []) (fun _ => none)) []
        [FixResult.other] "" = some [] :=
  ⟨claim_C4.1 _ _ [FixResult.taskOut "IF x THEN OUTLIER"] "" (by decide),
   claim_C4.2 _ _ [] FixResult.other "" (by decide) (Or.inl rfl)⟩

/-! ### Pointwise row semantics for `apply_rules_to_dataset` -/

theorem getD_zipWith {α β γ : Type} (f : α → β → γ) :
    ∀ (a : List α) (b : List β) (i : Nat) (da : α) (db : β) (dc : γ),
      a.length = b.length → i < a.length →
      (List.zipWith f a b).getD i dc = f (a.getD i da) (b.getD i db) := by
  intro a
  induction a with
  | nil => intro b i da db dc hl hi; simp at hi
  | cons x xs ih =>
    intro b i da db dc hl hi
    cases b with
    | nil => simp at hl
    | cons y ys =>
      cases i with
      | zero => simp
      | succ j =>
        simp only [List.zipWith_cons_cons, List.getD_cons_succ]
        exact ih ys j da db dc (by simpa using hl) (by simpa using hi)

theorem listBoolExt : ∀ (a b : List Bool), a.length = b.length →
    (∀ i, i < a.length → a.getD i false = b.getD i false) → a = b := by
  intro a
  induction a with
  | nil =>
    intro b hl _
    cases b with
    | nil => rfl
    | cons y ys => simp at hl
  | cons x xs ih =>
    intro b hl hp
    cases b with
    | nil => simp at hl
    | cons y ys =>
      have h0 := hp 0 (by simp)
      simp only [List.getD_cons_zero] at h0
      subst h0
      have := ih ys (by simpa using hl) (fun i hi => by
        have := hp (i + 1) (by simpa using Nat.succ_lt_succ hi)
        simpa using this)
      rw [this]

theorem outlierColQ_getD {flags : List Bool} {i : Nat} (hi : i < flags.length) :
    (outlierColQ flags).getD i 0 = (if flags.getD i false then (1 : ℚ) else 0) := by
  induction flags generalizing i with
  | nil => simp at hi
  | cons b bs ih =>
    cases i with
    | zero => simp [outlierColQ]
    | succ j =>
      simp only [outlierColQ, List.map_cons, List.getD_cons_succ]
      exact ih (by simpa using hi)

/-- The value `df[col]` holds at row `i`, as a function of that row's
current outlier flag. -/
def rowColVal (df : Df) (b : Bool) (c : String) (i : Nat) : ℚ :=
  if c = "outlier" then (if b then 1 else 0) else ((dfRawCol df c).getD []).getD i 0

theorem dfCol_getD {df : Df} {n : Nat} {flags : List Bool} {c : String} {xs : List ℚ}
    {i : Nat} (hfl : flags.length = n) (hi : i < n) (h : dfCol df flags c = some xs) :
    xs.getD i 0 = rowColVal df (flags.getD i false) c i := by
  unfold dfCol at h
  unfold rowColVal
  by_cases hc : c = "outlier"
  · rw [if_pos hc] at h
    rw [if_pos hc]
    cases h
    exact outlierColQ_getD (by rw [hfl]; exact hi)
  · rw [if_neg hc] at h
    rw [if_neg hc, h]
    rfl

/-- `mask_i &= x OP v` at a single row. -/
def rowCmp (m : Bool) (op : String) (x v : ℚ) : Bool :=
  if op = ">" then m && decide (x > v)
  else if op = "<" then m && decide (x < v)
  else if op = ">=" then m && decide (x ≥ v)
  else if op = "<=" then m && decide (x ≤ v)
  else if op = "==" then m && decide (x = v)
  else m

/-- One condition of one rule evaluated at one row, as a function of the
row's current outlier flag `b` and mask bit `m`. -/
def rowNarrow (df : Df) (b : Bool) (i : Nat) (m : Bool) (c : List Char) : Bool :=
  match findCond c with
  | none => m
  | some (colRaw, op, valStr) =>
    match pyFloatQ valStr with
    | none => m
    | some v => rowCmp m op (rowColVal df b (⟨pyStrip colRaw⟩ : String) i) v

/-- The whole condition list of a rule at one row. -/
def rowFold (df : Df) (b : Bool) (i : Nat) (cs : List (List Char)) (m : Bool) : Bool :=
  cs.foldl (fun m c => rowNarrow df b i m c) m

/-- The mask bit rule `rule` contributes at row `i`, as a function of the
row's current flag `b` (rules not consulted contribute `false`). -/
def ruleRowMask (df : Df) (n : Nat) (b : Bool) (i : Nat) (rule : String) : Bool :=
  if strIn rule "THEN OUTLIER" then
    match pySplit rule.data "THEN OUTLIER".data with
    | [condPart, _] => rowFold df b i (condsOf condPart) true
    | _ => false
  else false

theorem condNarrow_getD {mask : List Bool} {col : List ℚ} {n i : Nat}
    (hm : mask.length = n) (hc : col.length = n) (hi : i < n) (op : String) (v : ℚ) :
    (condNarrow mask col op v).getD i false =
      rowCmp (mask.getD i false) op (col.getD i 0) v := by
  unfold condNarrow rowCmp
  split_ifs <;>
    first
      | exact getD_zipWith _ mask col i false 0 false (hm.trans hc.symm) (by omega)
      | rfl

theorem narrowOne_getD {df : Df} {n : Nat} {flags mask mask' : List Bool}
    {c : List Char} {i : Nat} (hdf : dfOk df n = true)
    (hfl : flags.length = n) (hm : mask.length = n)
    (hi : i < n) (h : narrowOne df flags mask c = some mask') :
    mask'.getD i false =
      rowNarrow df (flags.getD i false) i (mask.getD i false) c := by
  unfold narrowOne at h
  unfold rowNarrow
  cases hf : findCond c with
  | none => rw [hf] at h; cases h; rfl
  | some t =>
    obtain ⟨colRaw, op, valStr⟩ := t
    rw [hf] at h
    dsimp only at h ⊢
    cases hv : pyFloatQ valStr with
    | none => rw [hv] at h; cases h
    | some v =>
      rw [hv] at h
      cases hcol : dfCol df flags (⟨pyStrip colRaw⟩ : String) with
      | none => rw [hcol] at h; cases h
      | some xs =>
        rw [hcol] at h
        cases h
        rw [condNarrow_getD hm (dfCol_length hdf hfl hcol) hi op v]
        rw [dfCol_getD hfl hi hcol]

theorem condsFold_getD {df : Df} {n : Nat} (hdf : dfOk df n = true) :
    ∀ (cs : List (List Char)) (flags mask mask' : List Bool) (i : Nat),
      flags.length = n → mask.length = n → i < n →
      condsFold df flags cs mask = some mask' →
      mask'.getD i false =
        rowFold df (flags.getD i false) i cs (mask.getD i false) := by
  intro cs
  induction cs with
  | nil =>
    intro flags mask mask' i hfl hm hi h
    cases h
    rfl
  | cons c rest ih =>
    intro flags mask mask' i hfl hm hi h
    unfold condsFold at h
    cases hn : narrowOne df flags mask c with
    | none => rw [hn] at h; cases h
    | some m2 =>
      rw [hn] at h
      have hr := ih flags m2 mask' i hfl (narrowOne_length hdf hfl hm hn) hi h
      rw [hr]
      unfold rowFold
      simp only [List.foldl_cons]
      rw [narrowOne_getD hdf hfl hm hi hn]

theorem narrowOne_isSome_indep {df : Df} {c : List Char}
    (flags flags' mask mask' : List Bool) :
    (narrowOne df flags mask c).isSome = (narrowOne df flags' mask' c).isSome := by
  unfold narrowOne
  cases hf : findCond c with
  | none => rfl
  | some t =>
    obtain ⟨colRaw, op, valStr⟩ := t
    dsimp only
    cases hv : pyFloatQ valStr with
    | none => rfl
    | some v =>
      unfold dfCol
      by_cases hco : (⟨pyStrip colRaw⟩ : String) = "outlier"
      · simp only [if_pos hco]
        rfl
      · simp only [if_neg hco]
        cases dfRawCol df (⟨pyStrip colRaw⟩ : String) <;> rfl

theorem condsFold_isSome_indep {df : Df} :
    ∀ (cs : List (List Char)) (flags flags' mask mask' : List Bool),
      (condsFold df flags cs mask).isSome = (condsFold df flags' cs mask').isSome := by
  intro cs
  induction cs with
  | nil => intro flags flags' mask mask'; rfl
  | cons c rest ih =>
    intro flags flags' mask mask'
    unfold condsFold
    cases hn : narrowOne df flags mask c with
    | none =>
      cases hn' : narrowOne df flags' mask' c with
      | none => rfl
      | some m2' =>
        have := @narrowOne_isSome_indep df c flags flags' mask mask'
        rw [hn, hn'] at this
        simp at this
    | some m2 =>
      cases hn' : narrowOne df flags' mask' c with
      | none =>
        have := @narrowOne_isSome_indep df c flags flags' mask mask'
        rw [hn, hn'] at this
        simp at this
      | some m2' =>
        simp only [Option.some_bind]
        exact ih flags flags' m2 m2'

theorem processRule_length {df : Df} {n : Nat} {flags flags' : List Bool} {rule : String}
    (hdf : dfOk df n = true) (hfl : flags.length = n)
    (h : processRule df n flags rule = some flags') : flags'.length = n := by
  unfold processRule at h
  by_cases hin : strIn rule "THEN OUTLIER" = true
  · rw [if_pos hin] at h
    cases hm : ruleMask df n flags rule with
    | none => rw [hm] at h; cases h
    | some m =>
      rw [hm] at h
      cases h
      simp [List.length_zipWith, hfl, ruleMask_length hdf hfl hm]
  · rw [if_neg hin] at h
    cases h
    exact hfl

theorem processRule_getD {df : Df} {n : Nat} {flags flags' : List Bool} {rule : String}
    {i : Nat} (hdf : dfOk df n = true) (hfl : flags.length = n) (hi : i < n)
    (h : processRule df n flags rule = some flags') :
    flags'.getD i false =
      (flags.getD i false || ruleRowMask df n (flags.getD i false) i rule) := by
  unfold processRule at h
  unfold ruleRowMask
  by_cases hin : strIn rule "THEN OUTLIER" = true
  · rw [if_pos hin] at h
    rw [if_pos hin]
    unfold ruleMask at h
    cases hp : pySplit rule.data "THEN OUTLIER".data with
    | nil => rw [hp] at h; cases h
    | cons a parts =>
      cases parts with
      | nil => rw [hp] at h; cases h
      | cons b parts2 =>
        cases parts2 with
        | nil =>
          rw [hp] at h
          dsimp only at h ⊢
          cases hcf : condsFold df flags (condsOf a) (List.replicate n true) with
          | none => rw [hcf] at h; cases h
          | some m =>
            rw [hcf] at h
            cases h
            have hmlen : m.length = n :=
              condsFold_length hdf hfl (condsOf a) _ m (by simp) hcf
            rw [getD_zipWith _ flags m i false false false (hfl.trans hmlen.symm)
              (by omega)]
            rw [condsFold_getD hdf (condsOf a) flags (List.replicate n true) m i hfl
              (by simp) hi hcf]
            rw [show (List.replicate n true).getD i false = true from by
              simp [List.getD_eq_getElem?_getD, List.getElem?_replicate, hi]]
        | cons d parts3 => rw [hp] at h; cases h
  · rw [if_neg hin] at h
    rw [if_neg hin]
    cases h
    simp

theorem processRule_isSome_indep {df : Df} {n : Nat} {rule : String}
    (flags flags' : List Bool) :
    (processRule df n flags rule).isSome = (processRule df n flags' rule).isSome := by
  unfold processRule
  by_cases hin : strIn rule "THEN OUTLIER" = true
  · simp only [if_pos hin]
    unfold ruleMask
    cases hp : pySplit rule.data "THEN OUTLIER".data with
    | nil => rfl
    | cons a parts =>
      cases parts with
      | nil => rfl
      | cons b parts2 =>
        cases parts2 with
        | nil =>
          dsimp only
          have := @condsFold_isSome_indep df (condsOf a) flags flags'
            (List.replicate n true) (List.replicate n true)
          cases h1 : condsFold df flags (condsOf a) (List.replicate n true) with
          | none =>
            cases h2 : condsFold df flags' (condsOf a) (List.replicate n true) with
            | none => rfl
            | some m2 => rw [h1, h2] at this; simp at this
          | some m1 =>
            cases h2 : condsFold df flags' (condsOf a) (List.replicate n true) with
            | none => rw [h1, h2] at this; simp at this
            | some m2 => rfl
        | cons d parts3 => rfl
  · simp only [if_neg hin]
    rfl

theorem monotone_or_update_comm (s : Bool) (g1 g2 : Bool → Bool) :
    ((s || g1 s) || g2 (s || g1 s)) = ((s || g2 s) || g1 (s || g2 s)) := by
  cases s with
  | true => simp
  | false =>
    simp only [Bool.false_or]
    cases h1 : g1 false with
    | true =>
      cases h2 : g2 false with
      | true => simp [h1, h2]
      | false => simp [h1, h2]
    | false =>
      cases h2 : g2 false with
      | true => simp [h1, h2]
      | false => simp [h1, h2]

theorem processPair_comm {df : Df} {n : Nat} {flags : List Bool}
    (hdf : dfOk df n = true) (hfl : flags.length = n) (r1 r2 : String) :
    (processRule df n flags r1).bind (fun f => processRule df n f r2)
      = (processRule df n flags r2).bind (fun f => processRule df n f r1) := by
  cases h1 : processRule df n flags r1 with
  | none =>
    cases h2 : processRule df n flags r2 with
    | none => rfl
    | some f2 =>
      have hs : (processRule df n f2 r1).isSome = (processRule df n flags r1).isSome :=
        processRule_isSome_indep f2 flags
      rw [h1] at hs
      simp only [Option.some_bind, Option.none_bind]
      exact (Option.not_isSome_iff_eq_none.mp (by simp [hs])).symm
  | some f1 =>
    cases h2 : processRule df n flags r2 with
    | none =>
      have hs : (processRule df n f1 r2).isSome = (processRule df n flags r2).isSome :=
        processRule_isSome_indep f1 flags
      rw [h2] at hs
      simp only [Option.some_bind, Option.none_bind]
      exact Option.not_isSome_iff_eq_none.mp (by simp [hs])
    | some f2 =>
      simp only [Option.some_bind]
      have hl1 : f1.length = n := processRule_length hdf hfl h1
      have hl2 : f2.length = n := processRule_length hdf hfl h2
      have hs12 : (processRule df n f1 r2).isSome = true := by
        rw [processRule_isSome_indep f1 flags, h2]; rfl
      have hs21 : (processRule df n f2 r1).isSome = true := by
        rw [processRule_isSome_indep f2 flags, h1]; rfl
      obtain ⟨g12, e12⟩ := Option.isSome_iff_exists.mp hs12
      obtain ⟨g21, e21⟩ := Option.isSome_iff_exists.mp hs21
      rw [e12, e21]
      have hlg12 : g12.length = n := processRule_length hdf hl1 e12
      have hlg21 : g21.length = n := processRule_length hdf hl2 e21
      have hext : g12 = g21 := by
        apply listBoolExt g12 g21 (hlg12.trans hlg21.symm)
        intro i hi
        have hin : i < n := by rw [hlg12] at hi; exact hi
        rw [processRule_getD hdf hl1 hin e12, processRule_getD hdf hfl hin h1]
        rw [processRule_getD hdf hl2 hin e21, processRule_getD hdf hfl hin h2]
        exact monotone_or_update_comm (flags.getD i false)
          (fun b => ruleRowMask df n b i r1) (fun b => ruleRowMask df n b i r2)
      rw [hext]

theorem rulesFold_perm {df : Df} {n : Nat} (hdf : dfOk df n = true)
    {l1 l2 : List String} (hp : l1.Perm l2) :
    ∀ flags : List Bool, flags.length = n →
      rulesFold df n l1 flags = rulesFold df n l2 flags := by
  induction hp with
  | nil => intro flags _; rfl
  | cons x hp ih =>
    intro flags hfl
    unfold rulesFold
    cases h : processRule df n flags x with
    | none => rfl
    | some f =>
      simp only [Option.some_bind]
      exact ih f (processRule_length hdf hfl h)
  | swap x y l =>
    intro flags hfl
    show (processRule df n flags y).bind
        (fun f => (processRule df n f x).bind (rulesFold df n l))
      = (processRule df n flags x).bind
        (fun f => (processRule df n f y).bind (rulesFold df n l))
    have hassoc : ∀ (o : Option (List Bool)) (f : List Bool → Option (List Bool)),
        (o.bind f).bind (rulesFold df n l)
          = o.bind (fun a => (f a).bind (rulesFold df n l)) := by
      intro o f
      cases o <;> rfl
    rw [← hassoc, ← hassoc, processPair_comm hdf hfl y x]
  | trans hp1 hp2 ih1 ih2 =>
    intro flags hfl
    exact (ih1 flags hfl).trans (ih2 flags hfl)

theorem rulesFold_getD_or {df : Df} {n : Nat} (hdf : dfOk df n = true) :
    ∀ (rules : List String) (flags flags' : List Bool) (i : Nat),
      flags.length = n → i < n →
      rulesFold df n rules flags = some flags' →
      flags'.getD i false =
        (flags.getD i false
          || rules.any (fun r => ruleRowMask df n (flags.getD i false) i r)) := by
  intro rules
  induction rules with
  | nil =>
    intro flags flags' i hfl hi h
    cases h
    simp
  | cons r rs ih =>
    intro flags flags' i hfl hi h
    unfold rulesFold at h
    cases hpr : processRule df n flags r with
    | none => rw [hpr] at h; cases h
    | some f =>
      rw [hpr] at h
      simp only [Option.some_bind] at h
      have hflen : f.length = n := processRule_length hdf hfl hpr
      have hstep : f.getD i false =
          (flags.getD i false || ruleRowMask df n (flags.getD i false) i r) :=
        processRule_getD hdf hfl hi hpr
      have hrec := ih f flags' i hflen hi h
      rw [hrec, hstep, List.any_cons]
      cases hs : flags.getD i false with
      | true => simp
      | false =>
        simp only [Bool.false_or]
        cases hr : ruleRowMask df n false i r with
        | true => simp
        | false => simp

/-- C3: `apply_rules_to_dataset` is order-independent: for every dataset
whose columns all have the row count and every permutation of the rule
list, the resulting outlier column is identical; and whenever the call
returns, that column is the row-wise logical OR of the individual rule
masks, each mask evaluated against the freshly initialised all-false
outlier column (rules without `'THEN OUTLIER'` contributing `false`). -/
theorem claim_C3 :
    (∀ (df : Df) (n : Nat) (rules rules' : List String),
      dfOk df n = true → rules.Perm rules' →
      applyRulesToDataset rules df n = applyRulesToDataset rules' df n) ∧
    (∀ (df : Df) (n : Nat) (rules : List String) (flags : List Bool),
      dfOk df n = true → applyRulesToDataset rules df n = some flags →
      ∀ i : Nat, i < n →
        flags.getD i false = rules.any (fun r => ruleRowMask df n false i r)) := by
  constructor
  · intro df n rules rules' hdf hp
    exact rulesFold_perm hdf hp (List.replicate n false) (by simp)
  · intro df n rules flags hdf h i hi
    have hor := rulesFold_getD_or hdf rules (List.replicate n false) flags i
      (by simp) hi h
    rw [hor]
    rw [show (List.replicate n false).getD i false = false from by
      simp [List.getD_eq_getElem?_getD, List.getElem?_replicate, hi]]
    simp

theorem claim_C3_witness :
    (applyRulesToDataset
        ["IF $speed$ > 120 THEN OUTLIER", "IF $speed$ <= 95 THEN OUTLIER"]
        [("speed", [100, 130, 90])] 3
      = applyRulesToDataset
        ["IF $speed$ <= 95 THEN OUTLIER", "IF $speed$ > 120 THEN OUTLIER"]
        [("speed", [100, 130, 90])] 3)
    ∧ (([false, true, true] : List Bool).getD 1 false
        = ["IF $speed$ > 120 THEN OUTLIER", "IF $speed$ <= 95 THEN OUTLIER"].any
            (fun r => ruleRowMask [("speed", [100, 130, 90])] 3 false 1 r)) :=
  ⟨claim_C3.1 [("speed", [100, 130, 90])] 3 _ _ (by decide)
      (List.Perm.swap "IF $speed$ <= 95 THEN OUTLIER"
        "IF $speed$ > 120 THEN OUTLIER" []),
   claim_C3.2 [("speed", [100, 130, 90])] 3 _ [false, true, true] (by decide)
      (by decide) 1 (by decide)⟩
